import Mathlib

/-
  Verification development for the plan-executor core of the multi_agent
  repository (src/core/executor.py, src/core/base_agent.py,
  src/core/state_models.py).

  The Python code is shallowly embedded: Python values are modelled by the
  inductive type Value, the mutable PlanExecutor object by explicit state
  passing over ExecSt, exceptions by an Except error component, and the
  recursive tree walk by a fuel-indexed interpreter runF (fuel exhaustion
  is the distinguished error ExecErr.outOfFuel, a modelling artifact: the
  Python recursion is bounded by the finite plan tree and the loop and
  step caps).  Thread-pool parallelism of parallel nodes is modelled as
  in-submission-order sequential completion; logging calls, timestamps and
  the uuid default are omitted.  Python float values and unicode escapes in
  JSON are not modelled (no plan in scope uses them).
-/

namespace MultiAgent

/-- Python values as they occur in plans, parameters, states and step
outputs: None, bool, int, str, list, dict (string keyed, insertion
ordered). -/
inductive Value where
  | vnull
  | vbool (b : Bool)
  | vint (n : Int)
  | vstr (s : String)
  | vlist (xs : List Value)
  | vdict (xs : List (String × Value))

/-! ### Character and string helpers (kernel-reducible replacements for
String library functions that do not reduce). -/

/-- ASCII whitespace as recognised by Python str.strip and regex backslash-s. -/
def isPySpace (c : Char) : Bool :=
  c = ' ' || c = '\t' || c = '\n' || c = '\x0d' || c = '\x0b' || c = '\x0c'

def strStartsWith (p s : String) : Bool :=
  p.data.isPrefixOf s.data

def strDrop (s : String) (n : Nat) : String :=
  String.mk (s.data.drop n)

/-- Python str.split on a single separator character; "".split gives [""]
in Python only for explicit separators, while the executor guards the
empty case itself, so the plain splitter is faithful here. -/
def pySplitAux (sep : Char) : List Char → List Char → List String
  | [], acc => [String.mk acc.reverse]
  | c :: cs, acc =>
    if c = sep then String.mk acc.reverse :: pySplitAux sep cs []
    else pySplitAux sep cs (c :: acc)

def pySplit (sep : Char) (s : String) : List String :=
  pySplitAux sep s.data []

/-- Python str.strip (ASCII whitespace). -/
def pyStrip (s : String) : String :=
  String.mk (((s.data.dropWhile isPySpace).reverse.dropWhile isPySpace).reverse)

/-- Lexicographic byte order on strings, used by json.dumps sort_keys. -/
def charListLe : List Char → List Char → Bool
  | [], _ => true
  | _ :: _, [] => false
  | a :: as_, b :: bs =>
    if a = b then charListLe as_ bs else decide (a.toNat < b.toNat)

def strLe (a b : String) : Bool := charListLe a.data b.data

/-- Insertion sort by key, stable, mirroring sorted(d.items()) inside
json.dumps(sort_keys=True). -/
def insertByKey (p : String × Value) : List (String × Value) → List (String × Value)
  | [] => [p]
  | q :: qs => if strLe p.1 q.1 then p :: q :: qs else q :: insertByKey p qs

def sortByKey : List (String × Value) → List (String × Value)
  | [] => []
  | p :: ps => insertByKey p (sortByKey ps)

/-- Python dict assignment d[k] = v: replaces the value of an existing key
in place, otherwise appends in insertion order. -/
def dictInsert (k : String) (v : Value) : List (String × Value) → List (String × Value)
  | [] => [(k, v)]
  | (k0, v0) :: rest =>
    if k0 = k then (k, v) :: rest else (k0, v0) :: dictInsert k v rest

/-- Python dict lookup d.get(k) (dict keys are unique in Python; the first
  match is the entry). -/
def dictGet {α : Type} (k : String) : List (String × α) → Option α
  | [] => none
  | (k0, v0) :: rest => if k0 = k then some v0 else dictGet k rest

/-! ### json.dumps and Python str() -/

/-- json.dumps escaping for the characters exercised by this code base
(quote, backslash, newline, tab, carriage return; other control characters
and non-ASCII escapes are not modelled). -/
def jsonEscChar (c : Char) : List Char :=
  if c = '"' then ['\\', '"']
  else if c = '\\' then ['\\', '\\']
  else if c = '\n' then ['\\', 'n']
  else if c = '\t' then ['\\', 't']
  else if c = '\x0d' then ['\\', 'r']
  else [c]

def jsonEscAux : List Char → List Char
  | [] => []
  | c :: cs => jsonEscChar c ++ jsonEscAux cs

def jsonEscStr (s : String) : String :=
  "\"" ++ String.mk (jsonEscAux s.data) ++ "\""

mutual
/-- json.dumps with default separators in insertion (dict) order, as used
for agent task payloads and template substitution. -/
def dumpsV : Value → String
  | .vnull => "null"
  | .vbool b => if b then "true" else "false"
  | .vint n => toString n
  | .vstr s => jsonEscStr s
  | .vlist xs => "[" ++ dumpsList xs ++ "]"
  | .vdict xs => "\x7b" ++ dumpsDict xs ++ "\x7d"
def dumpsList : List Value → String
  | [] => ""
  | [x] => dumpsV x
  | x :: y :: xs => dumpsV x ++ ", " ++ dumpsList (y :: xs)
def dumpsDict : List (String × Value) → String
  | [] => ""
  | [(k, v)] => jsonEscStr k ++ ": " ++ dumpsV v
  | (k, v) :: y :: xs =>
    jsonEscStr k ++ ": " ++ dumpsV v ++ ", " ++ dumpsDict (y :: xs)
end

mutual
/-- Sort every dict level by key; dumps of the canonical form equals
json.dumps with sort_keys=True. -/
def canon : Value → Value
  | .vdict xs => .vdict (sortByKey (canonD xs))
  | .vlist xs => .vlist (canonL xs)
  | .vnull => .vnull
  | .vbool b => .vbool b
  | .vint n => .vint n
  | .vstr s => .vstr s
def canonL : List Value → List Value
  | [] => []
  | x :: xs => canon x :: canonL xs
def canonD : List (String × Value) → List (String × Value)
  | [] => []
  | (k, v) :: xs => (k, canon v) :: canonD xs
end

/-- json.dumps(x, sort_keys=True), the canonical comparable form used by
the loop no-progress guard (the Python fallback to str(x) fires only for
unserialisable host objects, which Value excludes). -/
def dumpsSorted (v : Value) : String :=
  dumpsV (canon v)

/-- Python str() on the scalar values the resolver can meet (containers go
through json.dumps on every embedded path, so their Python repr form is
not modelled). -/
def pyStr : Value → String
  | .vnull => "None"
  | .vbool b => if b then "True" else "False"
  | .vint n => toString n
  | .vstr s => s
  | .vlist xs => dumpsV (.vlist xs)
  | .vdict xs => dumpsV (.vdict xs)

/-! ### json.loads (the subset needed by SafeEvaluator.get_value leaf
parsing: null, booleans, integers, strings with basic escapes, arrays,
objects; floats and unicode escapes make the parse fail, which the caller
treats as keep-the-original-string). -/

def isJsonDigit (c : Char) : Bool := '0' ≤ c && c ≤ '9'

def digitsToNat : List Char → Nat → Nat
  | [], acc => acc
  | c :: cs, acc => digitsToNat cs (acc * 10 + (c.toNat - '0'.toNat))

def jParseStrAux : List Char → List Char → Option (String × List Char)
  | [], _ => none
  | '"' :: rest, acc => some (String.mk acc.reverse, rest)
  | '\\' :: e :: rest, acc =>
    if e = '"' then jParseStrAux rest ('"' :: acc)
    else if e = '\\' then jParseStrAux rest ('\\' :: acc)
    else if e = '/' then jParseStrAux rest ('/' :: acc)
    else if e = 'n' then jParseStrAux rest ('\n' :: acc)
    else if e = 't' then jParseStrAux rest ('\t' :: acc)
    else if e = 'r' then jParseStrAux rest ('\x0d' :: acc)
    else if e = 'b' then jParseStrAux rest ('\x08' :: acc)
    else if e = 'f' then jParseStrAux rest ('\x0c' :: acc)
    else none
  | c :: rest, acc => jParseStrAux rest (c :: acc)

/-- Integer literal; fails when a fraction or exponent follows (floats are
outside the model). -/
def jParseInt (cs : List Char) : Option (Value × List Char) :=
  let (neg, cs1) := match cs with
    | '-' :: rest => (true, rest)
    | _ => (false, cs)
  let digits := cs1.takeWhile isJsonDigit
  let rest := cs1.drop digits.length
  if digits = [] then none
  else match rest with
    | '.' :: _ => none
    | 'e' :: _ => none
    | 'E' :: _ => none
    | _ =>
      let n : Int := Int.ofNat (digitsToNat digits 0)
      some (.vint (if neg then -n else n), rest)

mutual
def jParseV : Nat → List Char → Option (Value × List Char)
  | 0, _ => none
  | fuel + 1, cs =>
    match cs.dropWhile isPySpace with
    | 'n' :: 'u' :: 'l' :: 'l' :: rest => some (.vnull, rest)
    | 't' :: 'r' :: 'u' :: 'e' :: rest => some (.vbool true, rest)
    | 'f' :: 'a' :: 'l' :: 's' :: 'e' :: rest => some (.vbool false, rest)
    | '"' :: rest =>
      match jParseStrAux rest [] with
      | some (s, rest2) => some (.vstr s, rest2)
      | none => none
    | '[' :: rest =>
      match rest.dropWhile isPySpace with
      | ']' :: rest2 => some (.vlist [], rest2)
      | rest1 => jParseArr fuel rest1 []
    | '\x7b' :: rest =>
      match rest.dropWhile isPySpace with
      | '\x7d' :: rest2 => some (.vdict [], rest2)
      | rest1 => jParseObj fuel rest1 []
    | rest => jParseInt rest
def jParseArr : Nat → List Char → List Value → Option (Value × List Char)
  | 0, _, _ => none
  | fuel + 1, cs, acc =>
    match jParseV fuel cs with
    | some (v, rest) =>
      match rest.dropWhile isPySpace with
      | ',' :: rest2 => jParseArr fuel rest2 (acc ++ [v])
      | ']' :: rest2 => some (.vlist (acc ++ [v]), rest2)
      | _ => none
    | none => none
def jParseObj : Nat → List Char → List (String × Value) → Option (Value × List Char)
  | 0, _, _ => none
  | fuel + 1, cs, acc =>
    match cs.dropWhile isPySpace with
    | '"' :: rest =>
      match jParseStrAux rest [] with
      | some (k, rest1) =>
        match rest1.dropWhile isPySpace with
        | ':' :: rest2 =>
          match jParseV fuel rest2 with
          | some (v, rest3) =>
            match rest3.dropWhile isPySpace with
            | ',' :: rest4 => jParseObj fuel rest4 (dictInsert k v acc)
            | '\x7d' :: rest4 => some (.vdict (dictInsert k v acc), rest4)
            | _ => none
          | none => none
        | _ => none
      | none => none
    | _ => none
end

/-- json.loads: the whole string must be one JSON value (with surrounding
whitespace), otherwise the parse fails. -/
def jsonLoads (s : String) : Option Value :=
  match jParseV (s.data.length + 1) s.data with
  | some (v, rest) => if rest.dropWhile isPySpace = [] then some v else none
  | none => none

/-! ### state_models.py: TaskStatus, AgentResult, ExecutionState -/

inductive TaskStatus where
  | pending
  | inProgress
  | completed
  | failed
deriving DecidableEq

structure AgentResult where
  agentName : String
  taskDescription : String
  result : String
  status : TaskStatus
  errorMessage : Option String

/-- ExecutionState with the fields the executor core reads and writes
(timestamps and the agent-specific string-list fields of the pydantic
model are not exercised by any embedded path and are omitted). -/
structure ExecutionState where
  sessionId : String
  originalQuery : String
  agentResults : List AgentResult
  currentStep : Nat
  totalSteps : Nat
  metadata : List (String × Value)

/-- ExecutionState.add_agent_result: append to history; bump current_step
for COMPLETED or FAILED status. -/
def ExecutionState.addAgentResult (st : ExecutionState) (agentName taskDescription result : String)
    (status : TaskStatus) (errorMessage : Option String) : ExecutionState :=
  { st with
    agentResults := st.agentResults ++
      [{ agentName := agentName, taskDescription := taskDescription, result := result,
         status := status, errorMessage := errorMessage }],
    currentStep :=
      if status = TaskStatus.completed ∨ status = TaskStatus.failed then
        st.currentStep + 1
      else st.currentStep }

def taskStatusStr : TaskStatus → String
  | .pending => "pending"
  | .inProgress => "in_progress"
  | .completed => "completed"
  | .failed => "failed"

/-- An AgentResult as a Python value (its dict form; the execution_time
timestamp is omitted). -/
def agentResultValue (r : AgentResult) : Value :=
  .vdict [("agent_name", .vstr r.agentName),
          ("task_description", .vstr r.taskDescription),
          ("result", .vstr r.result),
          ("status", .vstr (taskStatusStr r.status)),
          ("error_message", match r.errorMessage with
            | some e => .vstr e
            | none => .vnull)]

/-- getattr on the ExecutionState pydantic model for the fields in the
embedding; unmodelled attributes resolve to None. -/
def stateAttr (st : ExecutionState) : String → Value
  | "session_id" => .vstr st.sessionId
  | "original_query" => .vstr st.originalQuery
  | "agent_results" => .vlist (st.agentResults.map agentResultValue)
  | "current_step" => .vint st.currentStep
  | "total_steps" => .vint st.totalSteps
  | "metadata" => .vdict st.metadata
  | _ => .vnull

/-- The model instance itself, as its dict form (returned by
_get_by_path for an empty dotted path). -/
def stateDictValue (st : ExecutionState) : Value :=
  .vdict [("session_id", .vstr st.sessionId),
          ("original_query", .vstr st.originalQuery),
          ("agent_results", .vlist (st.agentResults.map agentResultValue)),
          ("current_step", .vint st.currentStep),
          ("total_steps", .vint st.totalSteps),
          ("metadata", .vdict st.metadata)]

/-! ### SafeEvaluator (executor.py lines 18-98) -/

/-- Step outputs: node id to result, a Python dict. -/
abbrev Steps := List (String × Value)

def strEndsWith (p s : String) : Bool :=
  p.data.isSuffixOf s.data

/-- SafeEvaluator._get_by_path walking after the first attribute access:
None propagates, dicts are looked up (missing key gives None), getattr on
any other plain value gives None. -/
def walkVals : List String → Value → Value
  | [], cur => cur
  | p :: ps, cur =>
    match cur with
    | .vnull => walkVals ps .vnull
    | .vdict d => walkVals ps ((dictGet p d).getD .vnull)
    | _ => walkVals ps .vnull

/-- SafeEvaluator._get_by_path over the execution state. -/
def getByPath (st : ExecutionState) (dotted : String) : Value :=
  if dotted = "" then stateDictValue st
  else
    match pySplit '.' dotted with
    | [] => stateDictValue st
    | p :: ps => walkVals ps (stateAttr st p)

/-- The walk over parts[1:] for steps.* paths: the token output is
skipped, dicts are traversed, and a non-dict mid-path returns the current
value at once (flag false), skipping the JSON sniffing at the leaf. -/
def stepsWalk : List String → Value → Value × Bool
  | [], cur => (cur, true)
  | p :: ps, cur =>
    if p = "output" then stepsWalk ps cur
    else
      match cur with
      | .vdict d => stepsWalk ps ((dictGet p d).getD .vnull)
      | cur => (cur, false)

/-- Attempt to parse JSON-like strings at the leaf of a steps.* path. -/
def jsonLeaf : Value → Value
  | .vstr s =>
    let t := pyStrip s
    if (strStartsWith "\x7b" t && strEndsWith "\x7d" t)
        || (strStartsWith "[" t && strEndsWith "]" t) then
      match jsonLoads t with
      | some v => v
      | none => .vstr s
    else .vstr s
  | v => v

namespace SafeEvaluator

/-- SafeEvaluator.get_value: supports state.* and steps.* paths; anything
else resolves to None. -/
def get_value (path : String) (st : ExecutionState) (steps : Steps) : Value :=
  if strStartsWith "state." path then getByPath st (strDrop path 6)
  else if strStartsWith "steps." path then
    let remainder := strDrop path 6
    if remainder = "" then .vnull
    else
      match pySplit '.' remainder with
      | [] => .vnull
      | p :: ps =>
        match stepsWalk ps ((dictGet p steps).getD .vnull) with
        | (cur, false) => cur
        | (cur, true) => jsonLeaf cur
  else .vnull

/-- SafeEvaluator.length: len(x), or 0 when x has no length. -/
def lengthOf : Value → Nat
  | .vstr s => s.length
  | .vlist xs => xs.length
  | .vdict xs => xs.length
  | _ => 0

end SafeEvaluator

/-- Python truthiness for the modelled values. -/
def truthy : Value → Bool
  | .vnull => false
  | .vbool b => b
  | .vint n => decide (n ≠ 0)
  | .vstr s => !(s == "")
  | .vlist xs => !xs.isEmpty
  | .vdict xs => !xs.isEmpty

/-- bool/int numeric view (Python treats True as 1 and False as 0). -/
def numOf : Value → Option Int
  | .vbool b => some (if b then 1 else 0)
  | .vint n => some n
  | _ => none

mutual
/-- Python == on the modelled values.  Dict equality is modelled
structurally on entry order (Python compares dicts by key set; no
embedded path compares dicts, and executor-produced dicts have a
canonical construction order). -/
def pyEq : Value → Value → Bool
  | .vnull, .vnull => true
  | .vstr a, .vstr b => a == b
  | .vlist a, .vlist b => pyEqList a b
  | .vdict a, .vdict b => pyEqDict a b
  | a, b =>
    match numOf a, numOf b with
    | some x, some y => x == y
    | _, _ => false
def pyEqList : List Value → List Value → Bool
  | [], [] => true
  | a :: as_, b :: bs => pyEq a b && pyEqList as_ bs
  | _, _ => false
def pyEqDict : List (String × Value) → List (String × Value) → Bool
  | [], [] => true
  | (ka, va) :: as_, (kb, vb) :: bs => ka == kb && pyEq va vb && pyEqDict as_ bs
  | _, _ => false
end

def charListCmp : List Char → List Char → Ordering
  | [], [] => .eq
  | [], _ :: _ => .lt
  | _ :: _, [] => .gt
  | a :: as_, b :: bs =>
    if a.toNat < b.toNat then .lt
    else if b.toNat < a.toNat then .gt
    else charListCmp as_ bs

/-- Python three-way ordering; mixed or unordered types raise TypeError
(modelled as an error). -/
def pyCmp (a b : Value) : Except String Ordering :=
  match numOf a, numOf b with
  | some x, some y =>
    .ok (if x < y then .lt else if y < x then .gt else .eq)
  | _, _ =>
    match a, b with
    | .vstr s, .vstr t => .ok (charListCmp s.data t.data)
    | _, _ => .error "TypeError: unorderable types"

def isSubstr (needle : List Char) : List Char → Bool
  | [] => needle.isEmpty
  | c :: rest => needle.isPrefixOf (c :: rest) || isSubstr needle rest

/-- Python membership a in b. -/
def pyIn (a b : Value) : Except String Bool :=
  match b with
  | .vlist xs => .ok (xs.any (fun x => pyEq a x))
  | .vdict d => .ok (d.any (fun kv => pyEq a (.vstr kv.1)))
  | .vstr t =>
    match a with
    | .vstr s => .ok (isSubstr s.data t.data)
    | _ => .error "TypeError: in <string> requires string as left operand"
  | _ => .error "TypeError: argument is not iterable"

/-- The expression sub-language accepted by SafeEvaluator.eval: literals,
parentheses (implicit in the tree), and or not, comparisons, membership,
state.* and steps.* variables (pre-tokenised into var), and length().
An expression outside this grammar is represented by unsupported and
evaluates to an error, exactly as the restricted Python eval raises on
it. -/
inductive Expr where
  | lit (v : Value)
  | var (path : String)
  | enot (e : Expr)
  | eand (a b : Expr)
  | eor (a b : Expr)
  | eq (a b : Expr)
  | ne (a b : Expr)
  | lt (a b : Expr)
  | le (a b : Expr)
  | gt (a b : Expr)
  | ge (a b : Expr)
  | mem (a b : Expr)
  | length (e : Expr)
  | unsupported (src : String)

/-- Evaluation of the expression body inside the Python eval call: any
runtime error is an Except error, caught by SafeEvaluator.eval. -/
def evalV (st : ExecutionState) (steps : Steps) : Expr → Except String Value
  | .lit v => .ok v
  | .var p => .ok (SafeEvaluator.get_value p st steps)
  | .enot e => do
    let v ← evalV st steps e
    .ok (.vbool (! truthy v))
  | .eand a b => do
    let va ← evalV st steps a
    if truthy va then evalV st steps b else .ok va
  | .eor a b => do
    let va ← evalV st steps a
    if truthy va then .ok va else evalV st steps b
  | .eq a b => do
    let va ← evalV st steps a
    let vb ← evalV st steps b
    .ok (.vbool (pyEq va vb))
  | .ne a b => do
    let va ← evalV st steps a
    let vb ← evalV st steps b
    .ok (.vbool (! pyEq va vb))
  | .lt a b => do
    let va ← evalV st steps a
    let vb ← evalV st steps b
    match pyCmp va vb with
    | .ok o => .ok (.vbool (o = Ordering.lt))
    | .error e => .error e
  | .le a b => do
    let va ← evalV st steps a
    let vb ← evalV st steps b
    match pyCmp va vb with
    | .ok o => .ok (.vbool (o ≠ Ordering.gt))
    | .error e => .error e
  | .gt a b => do
    let va ← evalV st steps a
    let vb ← evalV st steps b
    match pyCmp va vb with
    | .ok o => .ok (.vbool (o = Ordering.gt))
    | .error e => .error e
  | .ge a b => do
    let va ← evalV st steps a
    let vb ← evalV st steps b
    match pyCmp va vb with
    | .ok o => .ok (.vbool (o ≠ Ordering.lt))
    | .error e => .error e
  | .mem a b => do
    let va ← evalV st steps a
    let vb ← evalV st steps b
    match pyIn va vb with
    | .ok r => .ok (.vbool r)
    | .error e => .error e
  | .length e => do
    let v ← evalV st steps e
    .ok (.vint (SafeEvaluator.lengthOf v))
  | .unsupported s => .error ("unsupported expression: " ++ s)

/-- SafeEvaluator.eval: bool(eval(...)) under a try/except that logs and
returns False on any error. -/
def SafeEvaluator.eval (e : Expr) (st : ExecutionState) (steps : Steps) : Bool :=
  match evalV st steps e with
  | .ok v => truthy v
  | .error _ => false

/-! ### TemplateResolver (executor.py lines 101-130)

The pattern is backslash-lbrace twice, backslash-s star, a group of one or
more non-rbrace characters (greedy), backslash-s star, rbrace twice.  The
greedy group therefore absorbs any whitespace between the path text and
the closing braces (the second backslash-s star can only match the empty
string), so the captured path keeps trailing whitespace; leading
whitespace is taken by the first backslash-s star, except that for an
all-whitespace interior backtracking hands the group exactly the last
whitespace character. -/

/-- The capture group the regex engine produces from the interior u
(nonempty, no closing brace). -/
def templateGroup (u : List Char) : List Char :=
  let p := u.dropWhile isPySpace
  if p.isEmpty then [u.getLast?.getD ' '] else p

/-- re.fullmatch of the template pattern: the whole string is lbrace
lbrace, interior without rbrace, rbrace rbrace; gives the captured path. -/
def fullTemplatePath (s : String) : Option String :=
  match s.data with
  | '\x7b' :: '\x7b' :: rest =>
    let u := rest.takeWhile (fun c => c ≠ '\x7d')
    if u.isEmpty then none
    else if rest.drop u.length = ['\x7d', '\x7d'] then
      some (String.mk (templateGroup u))
    else none
  | _ => none

/-- A match of the template pattern anchored at the start of cs, as tried
by re.sub at each position: gives the captured path and the remainder
after the match. -/
def matchTemplateAt : List Char → Option (String × List Char)
  | '\x7b' :: '\x7b' :: rest =>
    let u := rest.takeWhile (fun c => c ≠ '\x7d')
    if u.isEmpty then none
    else
      match rest.drop u.length with
      | '\x7d' :: '\x7d' :: after => some (String.mk (templateGroup u), after)
      | _ => none
  | _ => none

/-- The substitution callback: json.dumps for dict/list values, str()
otherwise (json.dumps cannot fail on modelled values, so the except
fallback is unreachable). -/
def replValue : Value → String
  | .vdict xs => dumpsV (.vdict xs)
  | .vlist xs => dumpsV (.vlist xs)
  | v => pyStr v

/-- re.sub scanning: try the pattern at each position, replace matches,
copy other characters.  Each step consumes at least one character, so the
character count is sufficient fuel. -/
def subGo (st : ExecutionState) (steps : Steps) : Nat → List Char → List Char
  | 0, cs => cs
  | _ + 1, [] => []
  | fuel + 1, c :: rest =>
    match matchTemplateAt (c :: rest) with
    | some (p, after) =>
      (replValue (SafeEvaluator.get_value p st steps)).data ++ subGo st steps fuel after
    | none => c :: subGo st steps fuel rest

namespace TemplateResolver

/-- TemplateResolver._render_str: a full-string template returns the
resolved value with its native type; otherwise placeholders are replaced
by their text form inside the string. -/
def render_str (st : ExecutionState) (steps : Steps) (s : String) : Value :=
  match fullTemplatePath s with
  | some p => SafeEvaluator.get_value p st steps
  | none => .vstr (String.mk (subGo st steps s.data.length s.data))

mutual
/-- TemplateResolver.render: recursive over dicts and lists, strings go
through _render_str, other scalars pass through. -/
def render (st : ExecutionState) (steps : Steps) : Value → Value
  | .vstr s => render_str st steps s
  | .vdict xs => .vdict (renderD st steps xs)
  | .vlist xs => .vlist (renderL st steps xs)
  | .vnull => .vnull
  | .vbool b => .vbool b
  | .vint n => .vint n
def renderL (st : ExecutionState) (steps : Steps) : List Value → List Value
  | [] => []
  | x :: xs => render st steps x :: renderL st steps xs
def renderD (st : ExecutionState) (steps : Steps) : List (String × Value) → List (String × Value)
  | [] => []
  | (k, v) :: xs => (k, render st steps v) :: renderD st steps xs
end

end TemplateResolver

/-! ### Plan nodes (the document shapes dispatched by _run_node)

A Python plan node is a dict; _run_node dispatches on the presence of
loop, then branch or branch_key, then the type tag, and a node matches
exactly one kind.  The dispatch precedence is encoded here as one
constructor per behaviour.  A node whose branch spec is a dict without a
list of cases (the invalid-specification HITL path) is not representable
in the typed model and is out of scope of the claims. -/

inductive Node where
  | agentCall (id : Option String) (agentId : String) (params : Value)
  | sequential (id : Option String) (tasks : List Node)
  | parallel (id : Option String) (tasks : List Node)
  | branchCases (id : Option String) (cases : List (Option Expr × List Node)) (elseTasks : List Node)
  | branchKey (id : Option String) (key : String) (cases : List (String × List Node))
  | loop (id : Option String) (condition : Option Expr) (doWhile : Bool)
      (maxIters : Option Nat) (tasks : List Node)
  | unknown (id : Option String) (tasks : List Node)

def nodeIdOf : Node → Option String
  | .agentCall id _ _ => id
  | .sequential id _ => id
  | .parallel id _ => id
  | .branchCases id _ _ => id
  | .branchKey id _ _ => id
  | .loop id _ _ _ _ => id
  | .unknown id _ => id

/-! ### Executor state, trace events, errors -/

inductive Event where
  | startPlan (rootId : Option String)
  | endPlan (rootId : Option String)
  | loopEnter (id : Option String)
  | loopExit (id : Option String)
  | branchEnter (id : Option String)
  | branchExit (id : Option String)
  | loopIterStart (id : Option String) (iter : Nat)
  | loopIterIdentical (id : Option String) (iter : Nat)
  | loopMaxIters (id : Option String) (iter : Nat)
  | loopConditionTrue (id : Option String) (iter : Nat) (post : Bool)
  | loopConditionFalse (id : Option String) (iter : Nat) (post : Bool)
  | branchSelectWhen (id : Option String) (when : Option Expr)
  | branchSelectKey (id : Option String) (value : Value)
  | parallelStart (id : Option String) (children : List (Option String))
  | parallelEnd (id : Option String)
  | agentStart (id : String) (agentId : String) (params : Value)
  | agentEnd (id : String) (agentId : String)
  | hitl (message : String)

inductive ExecErr where
  | planValidation (msg : String)
  | runtime (msg : String)
  | handlerFailure (msg : String)
  | outOfFuel

/-- str(e) on the raised exception, as interpolated into messages. -/
def errStr : ExecErr → String
  | .planValidation m => m
  | .runtime m => m
  | .handlerFailure m => m
  | .outOfFuel => "out of fuel"

/-- The mutable part of a PlanExecutor during one execute call. -/
structure ExecSt where
  state : ExecutionState
  steps : Steps
  trace : List Event
  totalSteps : Nat

def addTrace (e : Event) (s : ExecSt) : ExecSt :=
  { s with trace := s.trace ++ [e] }

/-- steps_outputs[step_id] = v guarded by the Python truthiness check
if step_id. -/
def storeIf (id : Option String) (v : Value) (s : ExecSt) : ExecSt :=
  match id with
  | some i => if i = "" then s else { s with steps := dictInsert i v s.steps }
  | none => s

/-- PlanExecutor._route_to_human_and_stop: record a FAILED HumanAssistant
history entry and a hitl trace event (logging omitted). -/
def routeToHumanAndStop (message : String) (s : ExecSt) : ExecSt :=
  { s with
    state := s.state.addAgentResult "HumanAssistant" message message TaskStatus.failed (some message),
    trace := s.trace ++ [Event.hitl message] }

/-- step_id or the empty string, as interpolated into messages (the
surrounding quote characters of the Python f-strings are left out of the
rendered text). -/
def orEmpty : Option String → String
  | some i => i
  | none => ""

def loopIdenticalMsg (id : Option String) : String :=
  "Loop " ++ orEmpty id ++ " detected identical outputs across iterations; halting for HITL"

def branchNoMatchMsg (id : Option String) : String :=
  "Branch " ++ orEmpty id ++ " ambiguous: no condition matched and no else provided"

def branchMultiMsg (id : Option String) : String :=
  "Branch " ++ orEmpty id ++ " ambiguous: multiple conditions matched"

def branchKeyNoMatchMsg (id : Option String) (val : Value) : String :=
  "Branch " ++ orEmpty id ++ " has no matching case for value " ++ pyStr val ++ " and no else"

def unknownAgentMsg (aid sid : String) : String :=
  "Unknown agent_id " ++ aid ++ " at step " ++ sid

def agentFailedMsg (aid sid err : String) : String :=
  "Agent " ++ aid ++ " failed at step " ++ sid ++ ": " ++ err

def parallelFailedMsg (cid err : String) : String :=
  "Parallel step " ++ cid ++ " failed: " ++ err

/-! ### Handler registry and configuration -/

/-- A registered handler: run(task, state snapshot), either a result
string or an escaping exception. -/
abbrev Handler := String → ExecutionState → Except String String

abbrev Registry := String → Option Handler

/-- The fixed plan-level id to registered-name translation table of
PlanExecutor._resolve_agent. -/
def agentIdMapping (aid : String) : Option String :=
  if aid = "talk_to_document" then some "TalktoDocument"
  else if aid = "playbook_generator" then some "PlaybookBuilder"
  else if aid = "service_level_agent" then some "ServiceLevelComplianceEvaluator"
  else if aid = "obligations_manager" then some "ObligationsManager"
  else if aid = "report_synthesizer" then some "MediatorAgent"
  else if aid = "human_assistant" then some "HumanAssistant"
  else none

def resolveAgent (reg : Registry) (aid : String) : Option Handler :=
  match agentIdMapping aid with
  | some name => reg name
  | none => none

/-- The executor configuration values read in PlanExecutor.__init__
(executor_max_workers only sizes the thread pool, which the sequentialised
parallel model does not need). -/
structure Config where
  executorMaxIters : Nat
  executorGlobalStepCap : Nat

/-- The loop/branch condition guard: break when a condition is present
and evaluates false. -/
def condHolds (condition : Option Expr) (s : ExecSt) : Bool :=
  match condition with
  | none => true
  | some e => SafeEvaluator.eval e s.state s.steps

/-- Python child.get("id") or "anon" (truthiness). -/
def anonKey : Option String → String
  | some i => if i = "" then "anon" else i
  | none => "anon"

/-- Python node.get("id") or an auto step name from the step counter. -/
def autoStepId (id : Option String) (n : Nat) : String :=
  match id with
  | some i => if i = "" then "step_" ++ toString n else i
  | none => "step_" ++ toString n

/-! ### The plan walk (PlanExecutor._run_node and friends)

runF is a fuel-indexed interpreter over work items: a node, a sequential
child list (also used for branch-selected children and loop bodies), the
child list of a parallel node (completion modelled in submission order),
and one loop iteration.  Fuel decreases on every recursive call; running
out of fuel is the modelling artifact ExecErr.outOfFuel. -/

inductive Work where
  | node (n : Node)
  | seqTasks (ts : List Node) (acc : Value)
  | parTasks (ts : List Node) (acc : List (String × Value))
  | loopIter (id : Option String) (condition : Option Expr) (doWhile : Bool)
      (tasks : List Node) (remaining : Nat) (iterIdx : Nat)
      (last : Option String) (acc : Value)

def runF (cfg : Config) (reg : Registry) : Nat → Work → ExecSt → (Except ExecErr Value) × ExecSt
  | 0, _, s => (.error .outOfFuel, s)
  | fuel + 1, w, s =>
    match w with
    | .seqTasks [] acc => (.ok acc, s)
    | .seqTasks (t :: ts) _ =>
      match runF cfg reg fuel (.node t) s with
      | (.ok v, s1) => runF cfg reg fuel (.seqTasks ts v) s1
      | (e, s1) => (e, s1)
    | .parTasks [] acc => (.ok (.vdict acc), s)
    | .parTasks (t :: ts) acc =>
      let cid := anonKey (nodeIdOf t)
      match runF cfg reg fuel (.node t) s with
      | (.ok v, s1) => runF cfg reg fuel (.parTasks ts (dictInsert cid v acc)) s1
      | (.error e, s1) =>
        (.error e, routeToHumanAndStop (parallelFailedMsg cid (errStr e)) s1)
    | .loopIter id condition dw tasks remaining iterIdx last acc =>
      let s1 := addTrace (.loopIterStart id iterIdx) s
      if !dw && !condHolds condition s1 then (.ok acc, s1)
      else
        match runF cfg reg fuel (.seqTasks tasks .vnull) s1 with
        | (.error e, s2) => (.error e, s2)
        | (.ok r, s2) =>
          let ser := dumpsSorted r
          if last = some ser then
            (.ok r,
             routeToHumanAndStop (loopIdenticalMsg id)
               (addTrace (.loopIterIdentical id iterIdx) s2))
          else
            if remaining ≤ 1 then
              (.ok r, addTrace (.loopMaxIters id (iterIdx + 1)) s2)
            else
              if dw && !condHolds condition s2 then
                (.ok r, addTrace (.loopConditionFalse id (iterIdx + 1) true) s2)
              else
                runF cfg reg fuel
                  (.loopIter id condition dw tasks (remaining - 1) (iterIdx + 1) (some ser) r)
                  (addTrace (.loopConditionTrue id (iterIdx + 1) dw) s2)
    | .node n =>
      if cfg.executorGlobalStepCap ≤ s.totalSteps then
        (.error (.runtime "Global step cap exceeded"), s)
      else
        match n with
        | .loop id condition dw mi tasks =>
          let s1 := addTrace (.loopEnter id) s
          match runF cfg reg fuel
              (.loopIter id condition dw tasks (mi.getD cfg.executorMaxIters) 0 none .vnull) s1 with
          | (.ok r, s2) => (.ok r, addTrace (.loopExit id) (storeIf id r s2))
          | (e, s2) => (e, s2)
        | .branchCases id cases elseTasks =>
          let s1 := addTrace (.branchEnter id) s
          match cases.filter (fun c =>
              match c.1 with
              | none => false
              | some e => SafeEvaluator.eval e s1.state s1.steps) with
          | [c] =>
            match runF cfg reg fuel (.seqTasks c.2 .vnull)
                (addTrace (.branchSelectWhen id c.1) s1) with
            | (.ok r, s3) => (.ok r, addTrace (.branchExit id) (storeIf id r s3))
            | (e, s3) => (e, s3)
          | [] =>
            if elseTasks.isEmpty then
              (.ok .vnull, addTrace (.branchExit id) (routeToHumanAndStop (branchNoMatchMsg id) s1))
            else
              match runF cfg reg fuel (.seqTasks elseTasks .vnull) s1 with
              | (.ok r, s3) => (.ok r, addTrace (.branchExit id) (storeIf id r s3))
              | (e, s3) => (e, s3)
          | _ :: _ :: _ =>
            (.ok .vnull, addTrace (.branchExit id) (routeToHumanAndStop (branchMultiMsg id) s1))
        | .branchKey id key cases =>
          if key = "" then (.ok .vnull, s)
          else
            let s1 := addTrace (.branchEnter id) s
            let val := SafeEvaluator.get_value
              (if strStartsWith "state." key || strStartsWith "steps." key then key
               else "state." ++ key) s1.state s1.steps
            match (match val with
                   | .vstr vs => dictGet vs cases
                   | _ => none) with
            | some ts =>
              match runF cfg reg fuel (.seqTasks ts .vnull)
                  (addTrace (.branchSelectKey id val) s1) with
              | (.ok r, s3) => (.ok r, addTrace (.branchExit id) (storeIf id r s3))
              | (e, s3) => (e, s3)
            | none =>
              match dictGet "else" cases with
              | some ts =>
                match runF cfg reg fuel (.seqTasks ts .vnull)
                    (addTrace (.branchSelectKey id (.vstr "else")) s1) with
                | (.ok r, s3) => (.ok r, addTrace (.branchExit id) (storeIf id r s3))
                | (e, s3) => (e, s3)
              | none =>
                (.ok .vnull,
                 addTrace (.branchExit id) (routeToHumanAndStop (branchKeyNoMatchMsg id val) s1))
        | .sequential _ ts => runF cfg reg fuel (.seqTasks ts .vnull) s
        | .parallel id ts =>
          let s1 := addTrace (.parallelStart id (ts.map nodeIdOf)) s
          match runF cfg reg fuel (.parTasks ts []) s1 with
          | (.ok v, s2) => (.ok v, addTrace (.parallelEnd id) (storeIf id v s2))
          | (e, s2) => (e, s2)
        | .agentCall id aid params =>
          let s1 := { s with totalSteps := s.totalSteps + 1 }
          let stepId := autoStepId id s1.totalSteps
          let resolved := TemplateResolver.render s1.state s1.steps params
          match resolveAgent reg aid with
          | none =>
            (.error (.runtime ("Unknown agent: " ++ aid)),
             routeToHumanAndStop (unknownAgentMsg aid stepId) s1)
          | some handler =>
            let s2 := addTrace (.agentStart stepId aid resolved) s1
            match handler (dumpsV resolved) s2.state with
            | .error e =>
              (.error (.handlerFailure e),
               routeToHumanAndStop (agentFailedMsg aid stepId e) s2)
            | .ok result =>
              let s3 := { s2 with steps := dictInsert stepId (.vstr result) s2.steps }
              let s4 := addTrace (.agentEnd stepId aid) s3
              (.ok (.vstr result),
               { s4 with state := { s4.state with
                   metadata := dictInsert "last_step"
                     (.vdict [("agent", .vstr aid), ("result", .vstr result),
                              ("parsed", .vnull), ("vars_set", .vlist [])])
                     s4.state.metadata } })
        | .unknown _ _ => (.ok .vnull, s)

/-! ### Validation (PlanExecutor._validate_ids_unique): recurses only into
the tasks child list of a node; children under branch cases or key-branch
case lists are not visited. -/

/-- The body of the per-node id check, with Python truthiness: a missing
or empty id is skipped. -/
def checkId (id : Option String) (seen : List String) : Except String (List String) :=
  match id with
  | some i =>
    if i = "" then .ok seen
    else if seen.contains i then .error ("Duplicate step id: " ++ i)
    else .ok (i :: seen)
  | none => .ok seen

mutual
def validateIds : Node → List String → Except String (List String)
  | .agentCall id _ _, seen => checkId id seen
  | .branchCases id _ _, seen => checkId id seen
  | .branchKey id _ _, seen => checkId id seen
  | .sequential id ts, seen =>
    match checkId id seen with
    | .ok seen1 => validateIdsL ts seen1
    | .error e => .error e
  | .parallel id ts, seen =>
    match checkId id seen with
    | .ok seen1 => validateIdsL ts seen1
    | .error e => .error e
  | .loop id _ _ _ ts, seen =>
    match checkId id seen with
    | .ok seen1 => validateIdsL ts seen1
    | .error e => .error e
  | .unknown id ts, seen =>
    match checkId id seen with
    | .ok seen1 => validateIdsL ts seen1
    | .error e => .error e
def validateIdsL : List Node → List String → Except String (List String)
  | [], seen => .ok seen
  | t :: ts, seen =>
    match validateIds t seen with
    | .ok seen1 => validateIdsL ts seen1
    | .error e => .error e
end

/-- Initial executor state (PlanExecutor.__init__). -/
def initExecSt (st : ExecutionState) : ExecSt :=
  { state := st, steps := [], trace := [], totalSteps := 0 }

/-- PlanExecutor.execute: missing root and duplicate ids raise before any
trace event; then the root node runs between start_plan and end_plan. -/
def execute (cfg : Config) (reg : Registry) (fuel : Nat) (root : Option Node) (s : ExecSt) :
    (Except ExecErr Value) × ExecSt :=
  match root with
  | none => (.error (.planValidation "Plan missing root"), s)
  | some r =>
    match validateIds r [] with
    | .error m => (.error (.planValidation m), s)
    | .ok _ =>
      let s1 := addTrace (.startPlan (nodeIdOf r)) s
      match runF cfg reg fuel (.node r) s1 with
      | (.ok v, s2) => (.ok v, addTrace (.endPlan (nodeIdOf r)) s2)
      | (e, s2) => (e, s2)

/-! ### Identifier collections over plan trees (used to state the claims) -/

def idList : Option String → List String
  | some i => if i = "" then [] else [i]
  | none => []

mutual
/-- Every (truthy) node identifier anywhere in the tree, including the
children of branch cases, key-branch cases and else lists. -/
def allIds : Node → List String
  | .agentCall id _ _ => idList id
  | .sequential id ts => idList id ++ allIdsL ts
  | .parallel id ts => idList id ++ allIdsL ts
  | .loop id _ _ _ ts => idList id ++ allIdsL ts
  | .unknown id ts => idList id ++ allIdsL ts
  | .branchCases id cases elseTasks => idList id ++ allIdsC cases ++ allIdsL elseTasks
  | .branchKey id _ cases => idList id ++ allIdsK cases
def allIdsL : List Node → List String
  | [] => []
  | t :: ts => allIds t ++ allIdsL ts
def allIdsC : List (Option Expr × List Node) → List String
  | [] => []
  | (_, ts) :: cs => allIdsL ts ++ allIdsC cs
def allIdsK : List (String × List Node) → List String
  | [] => []
  | (_, ts) :: cs => allIdsL ts ++ allIdsK cs
end

mutual
/-- The identifiers the validator can see: the node itself plus its tasks
descendants, in visit order. -/
def tasksIds : Node → List String
  | .agentCall id _ _ => idList id
  | .branchCases id _ _ => idList id
  | .branchKey id _ _ => idList id
  | .sequential id ts => idList id ++ tasksIdsL ts
  | .parallel id ts => idList id ++ tasksIdsL ts
  | .loop id _ _ _ ts => idList id ++ tasksIdsL ts
  | .unknown id ts => idList id ++ tasksIdsL ts
def tasksIdsL : List Node → List String
  | [] => []
  | t :: ts => tasksIds t ++ tasksIdsL ts
end

mutual
/-- Plans made only of sequential, parallel and agent-call nodes. -/
def seqParAgentOnly : Node → Bool
  | .agentCall _ _ _ => true
  | .sequential _ ts => seqParAgentOnlyL ts
  | .parallel _ ts => seqParAgentOnlyL ts
  | _ => false
def seqParAgentOnlyL : List Node → Bool
  | [] => true
  | t :: ts => seqParAgentOnly t && seqParAgentOnlyL ts
end

mutual
/-- The declared identifiers of parallel and agent-call nodes in a
seq/par/agent plan (sequential identifiers excluded). -/
def paIds : Node → List String
  | .agentCall id _ _ => idList id
  | .sequential _ ts => paIdsL ts
  | .parallel id ts => idList id ++ paIdsL ts
  | .branchCases _ _ _ => []
  | .branchKey _ _ _ => []
  | .loop _ _ _ _ _ => []
  | .unknown _ _ => []
def paIdsL : List Node → List String
  | [] => []
  | t :: ts => paIds t ++ paIdsL ts
end

/-! ### BaseAgent.run (base_agent.py lines 34-96)

The wrapper validates inputs, converts the legacy dict state, runs the
subclass task, and converts every raised exception into an error-message
string.  The except block records a FAILED history entry only when the
local variable execution_state already exists, that is only when the
exception was raised after the legacy-state conversion succeeded; the
second component below is the converted state (None when conversion never
happened), holding any entry the call recorded.  uuid4 is modelled as a
fixed fresh session string; the write-back state.update into the caller
dict has no observable effect on any embedded path and is omitted. -/

def errorIn (name e : String) : String :=
  "Error in " ++ name ++ ": " ++ e

/-- The two input validations at the top of run (Python falsiness makes an
empty string fail the first check; non-strings fail isinstance). -/
def validTask : Value → Except String String
  | .vstr t => if t = "" then .error "Task must be a non-empty string" else .ok t
  | _ => .error "Task must be a non-empty string"

def asDict : Value → Except String (List (String × Value))
  | .vdict d => .ok d
  | _ => .error "State must be a dictionary"

/-- pydantic string-field coercion for the constructor arguments (str
kept, int coerced; other shapes are a validation error). -/
def coerceStr : Value → Except String String
  | .vstr s => .ok s
  | .vint n => .ok (toString n)
  | _ => .error "validation error for ExecutionState"

def parseStatus (s : String) : TaskStatus :=
  if s = "failed" then .failed
  else if s = "pending" then .pending
  else if s = "in_progress" then .inProgress
  else .completed

def parseAgentResult : Value → Option AgentResult
  | .vdict d =>
    match dictGet "agent_name" d, dictGet "task_description" d, dictGet "result" d with
    | some (.vstr a), some (.vstr t), some (.vstr r) =>
      some { agentName := a, taskDescription := t, result := r,
             status := (match dictGet "status" d with
               | some (.vstr s) => parseStatus s
               | _ => .completed),
             errorMessage := (match dictGet "error_message" d with
               | some (.vstr e) => some e
               | _ => none) }
    | _, _, _ => none
  | _ => none

def parseAgentResults : List Value → List AgentResult
  | [] => []
  | v :: vs =>
    match parseAgentResult v with
    | some r => r :: parseAgentResults vs
    | none => parseAgentResults vs

/-- BaseAgent._convert_legacy_state: build an ExecutionState from the dict
(session_id defaulting to a fresh uuid, original_query to Unknown query),
then copy the model fields present in the dict.  Assignment in pydantic v1
does not validate, so ill-typed copies leave Python garbage in the model;
the typed embedding keeps the defaults for those. -/
def convertLegacyState (d : List (String × Value)) : Except String ExecutionState := do
  let sid ← coerceStr ((dictGet "session_id" d).getD (.vstr "generated-session-id"))
  let oq ← coerceStr ((dictGet "original_query" d).getD (.vstr "Unknown query"))
  .ok { sessionId := sid
        originalQuery := oq
        agentResults :=
          (match dictGet "agent_results" d with
           | some (.vlist vs) => parseAgentResults vs
           | _ => [])
        currentStep :=
          (match dictGet "current_step" d with
           | some (.vint n) => n.toNat
           | _ => 0)
        totalSteps :=
          (match dictGet "total_steps" d with
           | some (.vint n) => n.toNat
           | _ => 0)
        metadata :=
          (match dictGet "metadata" d with
           | some (.vdict m) => m
           | _ => []) }

def strLower (s : String) : String :=
  String.mk (s.data.map Char.toLower)

/-- Attribute names hasattr can see on the ExecutionState model (fields
and methods defined in state_models.py). -/
def stateAttrNames : List String :=
  ["session_id", "original_query", "agent_results", "current_step", "total_steps",
   "start_time", "end_time", "metadata",
   "onboarding_status", "legal_findings", "drafted_contracts", "playbook_entries",
   "teams_messages", "consistency_reports", "search_results", "harmonized_templates",
   "compliance_reports", "recurrence_schedules", "extracted_data", "ttd_reports",
   "add_agent_result", "get_agent_results_by_name", "get_failed_results",
   "is_completed", "mark_completed"]

/-- BaseAgent._validate_inputs: a requirement is satisfied when present in
state metadata, as a state attribute, or as a lowercase substring of the
task text. -/
def missingRequirements (inputReqs : List String) (task : String) (st : ExecutionState) :
    List String :=
  inputReqs.filter (fun req =>
    !(dictGet req st.metadata).isSome
      && !stateAttrNames.contains req
      && !isSubstr (strLower req).data (strLower task).data)

/-- The subclass hook _execute_task: a result string with the (possibly
mutated) state, or an exception with the state as mutated before the
raise. -/
abbrev ExecTask := String → ExecutionState → Except (String × ExecutionState) (String × ExecutionState)

namespace BaseAgent

/-- BaseAgent.run. -/
def run (name : String) (inputReqs : List String) (execTask : ExecTask)
    (task stateArg : Value) : String × Option ExecutionState :=
  match validTask task with
  | .error e => (errorIn name e, none)
  | .ok t =>
    match asDict stateArg with
    | .error e => (errorIn name e, none)
    | .ok d =>
      match convertLegacyState d with
      | .error e => (errorIn name e, none)
      | .ok st =>
        match missingRequirements inputReqs t st with
        | _ :: _ =>
          let e := "Missing required inputs"
          (errorIn name e,
           some (st.addAgentResult name t (errorIn name e) TaskStatus.failed (some e)))
        | [] =>
          match execTask t st with
          | .error (e, st1) =>
            (errorIn name e,
             some (st1.addAgentResult name t (errorIn name e) TaskStatus.failed (some e)))
          | .ok (result, st1) =>
            (result, some (st1.addAgentResult name t result TaskStatus.completed none))

end BaseAgent

/-! ### Concrete fixtures used by witnesses and counterexamples -/

def sampleConfig : Config := { executorMaxIters := 10, executorGlobalStepCap := 100 }

def sampleRegistry : Registry :=
  fun n => if n = "TalktoDocument" then some (fun _ _ => .ok "hi") else none

def emptyRegistry : Registry := fun _ => none

def sampleState : ExecutionState :=
  { sessionId := "sess", originalQuery := "query", agentResults := [], currentStep := 0,
    totalSteps := 0, metadata := [("x", .vint 5)] }

def agentA : Node := .agentCall (some "a") "talk_to_document" (.vdict [])

def agentB : Node := .agentCall (some "b") "talk_to_document" (.vdict [])

/-! ### Claim theorems -/

/-- C3: for every expression handed to the condition evaluator, if its
evaluation inside the restricted eval raises any runtime error (including
expressions outside the supported grammar, embedded as
Expr.unsupported), SafeEvaluator.eval returns false; being a total Lean
function it propagates no exception to the caller. -/
theorem c3_eval_fail_closed (e : Expr) (st : ExecutionState) (steps : Steps) (msg : String)
    (h : evalV st steps e = .error msg) : SafeEvaluator.eval e st steps = false := by
  unfold SafeEvaluator.eval
  rw [h]

theorem c3_eval_fail_closed_witness :
    SafeEvaluator.eval (.unsupported "open(file)") sampleState [] = false :=
  c3_eval_fail_closed (.unsupported "open(file)") sampleState []
    "unsupported expression: open(file)" rfl

theorem takeWhile_all_append (q : Char → Bool) (xs ys : List Char) (h : ∀ c ∈ xs, q c = true) :
    (xs ++ ys).takeWhile q = xs ++ ys.takeWhile q := by
  induction xs with
  | nil => simp
  | cons c cs ih =>
    rw [List.cons_append, List.takeWhile_cons, h c (List.mem_cons_self c cs)]
    simp only [List.cons_append, if_true]
    rw [ih (fun d hd => h d (List.mem_cons_of_mem c hd))]

theorem dropWhile_all_append (q : Char → Bool) (xs ys : List Char) (h : ∀ c ∈ xs, q c = true) :
    (xs ++ ys).dropWhile q = ys.dropWhile q := by
  induction xs with
  | nil => simp
  | cons c cs ih =>
    rw [List.cons_append, List.dropWhile_cons, h c (List.mem_cons_self c cs)]
    simp only [if_true]
    exact ih (fun d hd => h d (List.mem_cons_of_mem c hd))

theorem isPySpace_ne_rb (c : Char) (h : isPySpace c = true) : (c ≠ '\x7d') := by
  intro hc
  subst hc
  simp [isPySpace] at h

/-- C6 counterexample: with state.metadata.x = 5, the parameter that is
exactly one placeholder with whitespace between the braces and the path on
both sides resolves to None, not to the native integer 5: the greedy
capture group keeps the trailing whitespace inside the path. -/
theorem c6_counterexample_trailing_whitespace :
    TemplateResolver.render_str sampleState [] "\x7b\x7b state.metadata.x \x7d\x7d" = .vnull
      ∧ Value.vnull ≠ Value.vint 5 :=
  ⟨rfl, fun h => Value.noConfusion h⟩

/-- C6 amended: for a string parameter that is exactly one placeholder,
whitespace may precede the path inside the braces but none may follow it
(the greedy group would absorb it into the path); then the referenced
value is returned with its native type intact.  With state.metadata.x = 5
the exact placeholder resolves to the integer 5 and the mixed-text
parameter renders to the text with the value substituted. -/
theorem c6_amended_template_resolution (st : ExecutionState) (steps : Steps) (ws p : List Char)
    (hws : ∀ c ∈ ws, isPySpace c = true)
    (hp : p ≠ [])
    (hhead : p.dropWhile isPySpace = p)
    (hnb : ∀ c ∈ p, ¬ c = '\x7d') :
    (TemplateResolver.render_str st steps
        (String.mk ('\x7b' :: '\x7b' :: (ws ++ (p ++ ['\x7d', '\x7d']))))
      = SafeEvaluator.get_value (String.mk p) st steps)
    ∧ TemplateResolver.render_str sampleState [] "\x7b\x7bstate.metadata.x\x7d\x7d" = .vint 5
    ∧ TemplateResolver.render_str sampleState [] "value is \x7b\x7bstate.metadata.x\x7d\x7d"
        = .vstr "value is 5" := by
  refine ⟨?_, rfl, rfl⟩
  have hq : ∀ c ∈ ws ++ p, (fun c => decide (c ≠ '\x7d')) c = true := by
    intro c hc
    rcases List.mem_append.mp hc with h1 | h2
    · simp [isPySpace_ne_rb c (hws c h1)]
    · simp [hnb c h2]
  unfold TemplateResolver.render_str fullTemplatePath
  simp only
  have hassoc : ws ++ (p ++ ['\x7d', '\x7d']) = (ws ++ p) ++ ['\x7d', '\x7d'] := by
    rw [List.append_assoc]
  rw [hassoc]
  rw [takeWhile_all_append _ _ _ hq]
  have htw : (['\x7d', '\x7d'] : List Char).takeWhile (fun c => decide (c ≠ '\x7d')) = [] := rfl
  rw [htw, List.append_nil]
  have hne : (ws ++ p).isEmpty = false := by
    cases hws2 : ws ++ p with
    | nil => exact absurd (List.append_eq_nil.mp hws2).2 hp
    | cons a l => rfl
  rw [hne]
  simp only [Bool.false_eq_true, if_false]
  rw [List.drop_left]
  simp only [if_pos rfl]
  unfold templateGroup
  rw [dropWhile_all_append _ _ _ hws, hhead]
  have hpe : p.isEmpty = false := by
    cases p with
    | nil => exact absurd rfl hp
    | cons a l => rfl
  simp [hpe]

theorem c6_amended_template_resolution_witness :
    TemplateResolver.render_str sampleState [] "\x7b\x7b state.metadata.x\x7d\x7d" = .vint 5 :=
  (c6_amended_template_resolution sampleState [] [' '] ("state.metadata.x".data)
    (by decide) (by decide) (by decide) (by decide)).1

/-- C8 counterexample: a failed call (unknown handler id) still increments
the global step counter: after the failing dispatch the counter went from
0 to 1, refuting increments-only-on-success. -/
theorem c8_counterexample_increment_on_failure :
    (runF sampleConfig emptyRegistry 2 (.node (.agentCall (some "bad") "nope" (.vdict [])))
        (initExecSt sampleState)).1 = .error (.runtime "Unknown agent: nope")
    ∧ (runF sampleConfig emptyRegistry 2 (.node (.agentCall (some "bad") "nope" (.vdict [])))
        (initExecSt sampleState)).2.totalSteps = 1 :=
  ⟨rfl, rfl⟩

/-- C8 amended: the global step counter is incremented by every agent-call
dispatch, successful or not (the increment precedes handler resolution),
and once the counter has reached the configured ceiling any further node
dispatch raises the fatal step-cap error directly, leaving state and trace
untouched (no HITL escalation). -/
theorem c8_amended_step_counter_and_cap (cfg : Config) (reg : Registry) (f : Nat) :
    (∀ (id : Option String) (aid : String) (params : Value) (s : ExecSt),
      s.totalSteps < cfg.executorGlobalStepCap →
      (runF cfg reg (f + 1) (.node (.agentCall id aid params)) s).2.totalSteps = s.totalSteps + 1)
    ∧ (∀ (n : Node) (s : ExecSt),
      cfg.executorGlobalStepCap ≤ s.totalSteps →
      runF cfg reg (f + 1) (.node n) s = (.error (.runtime "Global step cap exceeded"), s)) := by
  constructor
  · intro id aid params s hcap
    simp only [runF]
    rw [if_neg (Nat.not_le.mpr hcap)]
    cases hr : resolveAgent reg aid with
    | none => simp [routeToHumanAndStop]
    | some h =>
      simp only []
      cases hh : h (dumpsV (TemplateResolver.render s.state s.steps params))
          (addTrace (.agentStart (autoStepId id (s.totalSteps + 1)) aid
            (TemplateResolver.render s.state s.steps params))
            { s with totalSteps := s.totalSteps + 1 }).state with
      | error e => simp [hh, routeToHumanAndStop, addTrace]
      | ok r => simp [hh, addTrace]
  · intro n s hcap
    simp only [runF]
    rw [if_pos hcap]

theorem c8_amended_step_counter_and_cap_witness :
    (runF sampleConfig emptyRegistry 5 (.node (.agentCall (some "z") "nope" (.vdict [])))
      (initExecSt sampleState)).2.totalSteps = 0 + 1 :=
  (c8_amended_step_counter_and_cap sampleConfig emptyRegistry 4).1 (some "z") "nope" (.vdict [])
    (initExecSt sampleState) (by decide)

/-- A plan whose only branch case holds two children with the same
identifier x: the validator never visits children under branch cases. -/
def dupBranchPlan : Node :=
  .sequential none
    [.branchCases (some "b")
      [(some (.lit (.vbool true)),
        [.agentCall (some "x") "talk_to_document" (.vdict []),
         .agentCall (some "x") "talk_to_document" (.vdict [])])] []]

/-- C4 counterexample: this plan tree carries the identifier x on two
distinct nodes (inside a branch case), yet execute does not raise a
validation error: it runs the plan to a successful result and even runs
both duplicate-id nodes. -/
theorem c4_counterexample_branch_case_duplicates_escape :
    ¬ (allIds dupBranchPlan).Nodup
    ∧ (execute sampleConfig sampleRegistry 50 (some dupBranchPlan)
        (initExecSt sampleState)).1 = .ok (.vstr "hi") :=
  ⟨by decide, rfl⟩

def seqIdPlan : Node := .sequential (some "s") [agentA]

/-- C5 counterexample: a successful plan whose root is a sequential node
with identifier s: after execute the child agent id a is a key of Step
Outputs but s is not (the sequential runner never stores its own id). -/
theorem c5_counterexample_sequential_id_missing :
    (execute sampleConfig sampleRegistry 50 (some seqIdPlan) (initExecSt sampleState)).1
        = .ok (.vstr "hi")
    ∧ "s" ∈ allIds seqIdPlan
    ∧ dictGet "s" (execute sampleConfig sampleRegistry 50 (some seqIdPlan)
        (initExecSt sampleState)).2.steps = none
    ∧ dictGet "a" (execute sampleConfig sampleRegistry 50 (some seqIdPlan)
        (initExecSt sampleState)).2.steps = some (.vstr "hi") :=
  ⟨rfl, by decide, rfl, rfl⟩

def constLoopPlan : Node :=
  .loop (some "L") (some (.lit (.vbool true))) false (some 3) [agentA]

/-- C7 counterexample: a loop with max_iters = 3, an always-true condition
and a body whose result is the same on every iteration runs the body only
2 times and ends through the no-progress HITL escalation, not through the
iteration cap: the trace holds two loop_iter_start events, a hitl event
and no loop_max_iters event. -/
theorem c7_counterexample_constant_body_stops_at_two :
    (execute sampleConfig sampleRegistry 50 (some constLoopPlan) (initExecSt sampleState)).1
        = .ok (.vstr "hi")
    ∧ ((execute sampleConfig sampleRegistry 50 (some constLoopPlan)
        (initExecSt sampleState)).2.trace.filter (fun e =>
          match e with
          | .loopIterStart _ _ => true
          | _ => false)).length = 2
    ∧ ((execute sampleConfig sampleRegistry 50 (some constLoopPlan)
        (initExecSt sampleState)).2.trace.any (fun e =>
          match e with
          | .hitl _ => true
          | _ => false)) = true
    ∧ ((execute sampleConfig sampleRegistry 50 (some constLoopPlan)
        (initExecSt sampleState)).2.trace.any (fun e =>
          match e with
          | .loopMaxIters _ _ => true
          | _ => false)) = false :=
  ⟨rfl, rfl, rfl, rfl⟩

def stubExecTask : ExecTask := fun t st => .ok ("done: " ++ t, st)

/-- C10 counterexample: for an empty task the wrapper returns the
error-message string but records no FAILED entry anywhere: the exception
is raised before the legacy-state conversion, so the except block sees no
execution_state local and skips the history append. -/
theorem c10_counterexample_early_failure_records_nothing :
    BaseAgent.run "TestAgent" [] stubExecTask (.vstr "") (.vdict []) =
      ("Error in TestAgent: Task must be a non-empty string", none) := rfl

/-- C10 amended: BaseAgent.run never raises and always returns a result
string; a FAILED history entry is recorded exactly when the failure
happens after the legacy-state conversion succeeded (missing input
requirements or a task exception), while invalid task or state arguments
and conversion failures return the error string with nothing recorded. -/
theorem c10_amended_run_failure_recording (name : String) (inputReqs : List String)
    (execTask : ExecTask) (task stateArg : Value) :
    (∀ e, validTask task = .error e →
      BaseAgent.run name inputReqs execTask task stateArg = (errorIn name e, none))
    ∧ (∀ t e, validTask task = .ok t → asDict stateArg = .error e →
      BaseAgent.run name inputReqs execTask task stateArg = (errorIn name e, none))
    ∧ (∀ t d e, validTask task = .ok t → asDict stateArg = .ok d →
      convertLegacyState d = .error e →
      BaseAgent.run name inputReqs execTask task stateArg = (errorIn name e, none))
    ∧ (∀ t d st e st1, validTask task = .ok t → asDict stateArg = .ok d →
      convertLegacyState d = .ok st → missingRequirements inputReqs t st = [] →
      execTask t st = .error (e, st1) →
      BaseAgent.run name inputReqs execTask task stateArg =
        (errorIn name e,
         some (st1.addAgentResult name t (errorIn name e) TaskStatus.failed (some e))))
    ∧ (∀ t d st r st1, validTask task = .ok t → asDict stateArg = .ok d →
      convertLegacyState d = .ok st → missingRequirements inputReqs t st = [] →
      execTask t st = .ok (r, st1) →
      BaseAgent.run name inputReqs execTask task stateArg =
        (r, some (st1.addAgentResult name t r TaskStatus.completed none))) := by
  refine ⟨?_, ?_, ?_, ?_, ?_⟩
  · intro e h
    unfold BaseAgent.run
    simp only [h]
  · intro t e h1 h2
    unfold BaseAgent.run
    simp only [h1, h2]
  · intro t d e h1 h2 h3
    unfold BaseAgent.run
    simp only [h1, h2, h3]
  · intro t d st e st1 h1 h2 h3 h4 h5
    unfold BaseAgent.run
    simp only [h1, h2, h3, h4, h5]
  · intro t d st r st1 h1 h2 h3 h4 h5
    unfold BaseAgent.run
    simp only [h1, h2, h3, h4, h5]

theorem c10_amended_run_failure_recording_witness :
    BaseAgent.run "TestAgent" [] (fun _ st => .error ("boom", st)) (.vstr "work")
        (.vdict [("session_id", .vstr "s1"), ("original_query", .vstr "q1")]) =
      ("Error in TestAgent: boom",
       some
         { sessionId := "s1", originalQuery := "q1",
           agentResults :=
             [{ agentName := "TestAgent", taskDescription := "work",
                result := "Error in TestAgent: boom", status := TaskStatus.failed,
                errorMessage := some "boom" }],
           currentStep := 1, totalSteps := 0, metadata := [] }) := by
  have h := (c10_amended_run_failure_recording "TestAgent" []
    (fun _ st => .error ("boom", st)) (.vstr "work")
    (.vdict [("session_id", .vstr "s1"), ("original_query", .vstr "q1")])).2.2.2.1
    "work" [("session_id", .vstr "s1"), ("original_query", .vstr "q1")]
    { sessionId := "s1", originalQuery := "q1", agentResults := [], currentStep := 0,
      totalSteps := 0, metadata := [] } "boom"
    { sessionId := "s1", originalQuery := "q1", agentResults := [], currentStep := 0,
      totalSteps := 0, metadata := [] } rfl rfl rfl rfl rfl
  exact h.trans rfl

/-- C2: explicit-condition branches evaluate every case condition
independently against the current state and step outputs; with exactly
one match the branch is exactly the sequential run of that case's child
list (its result, stored under the branch id, is the branch result); with
zero matches and no else the executor records the HITL escalation and
yields an absent result without raising and without running any child;
with several matches it records the HITL escalation and yields an absent
result without raising and without running any case's child list. -/
theorem c2_branch_explicit_semantics (cfg : Config) (reg : Registry) (f : Nat)
    (id : Option String) (cases : List (Option Expr × List Node)) (elseTasks : List Node)
    (s : ExecSt) (hcap : s.totalSteps < cfg.executorGlobalStepCap) :
    (∀ c, cases.filter (fun c =>
        match c.1 with
        | none => false
        | some e => SafeEvaluator.eval e (addTrace (.branchEnter id) s).state
            (addTrace (.branchEnter id) s).steps) = [c] →
      runF cfg reg (f + 1) (.node (.branchCases id cases elseTasks)) s =
        (match runF cfg reg f (.seqTasks c.2 .vnull)
            (addTrace (.branchSelectWhen id c.1) (addTrace (.branchEnter id) s)) with
         | (.ok r, s3) => (.ok r, addTrace (.branchExit id) (storeIf id r s3))
         | (e, s3) => (e, s3)))
    ∧ (cases.filter (fun c =>
        match c.1 with
        | none => false
        | some e => SafeEvaluator.eval e (addTrace (.branchEnter id) s).state
            (addTrace (.branchEnter id) s).steps) = [] → elseTasks = [] →
      runF cfg reg (f + 1) (.node (.branchCases id cases elseTasks)) s =
        (.ok .vnull, addTrace (.branchExit id)
          (routeToHumanAndStop (branchNoMatchMsg id) (addTrace (.branchEnter id) s))))
    ∧ (∀ c1 c2 rest, cases.filter (fun c =>
        match c.1 with
        | none => false
        | some e => SafeEvaluator.eval e (addTrace (.branchEnter id) s).state
            (addTrace (.branchEnter id) s).steps) = c1 :: c2 :: rest →
      runF cfg reg (f + 1) (.node (.branchCases id cases elseTasks)) s =
        (.ok .vnull, addTrace (.branchExit id)
          (routeToHumanAndStop (branchMultiMsg id) (addTrace (.branchEnter id) s)))) := by
  refine ⟨?_, ?_, ?_⟩
  · intro c hms
    simp only [runF]
    rw [if_neg (Nat.not_le.mpr hcap)]
    simp only [hms]
  · intro hms helse
    subst helse
    simp only [runF]
    rw [if_neg (Nat.not_le.mpr hcap)]
    simp only [hms, List.isEmpty_nil, if_true]
  · intro c1 c2 rest hms
    simp only [runF]
    rw [if_neg (Nat.not_le.mpr hcap)]
    simp only [hms]

theorem c2_branch_explicit_semantics_witness :
    dictGet "B" (runF sampleConfig sampleRegistry 10
      (.node (.branchCases (some "B") [(some (.lit (.vbool true)), [agentA])] []))
      (initExecSt sampleState)).2.steps = some (.vstr "hi") := by
  have h := (c2_branch_explicit_semantics sampleConfig sampleRegistry 9 (some "B")
    [(some (.lit (.vbool true)), [agentA])] [] (initExecSt sampleState) (by decide)).1
    (some (.lit (.vbool true)), [agentA]) rfl
  rw [h]
  rfl

theorem dictGet_insert_self (k : String) (v : Value) (l : List (String × Value)) :
    dictGet k (dictInsert k v l) = some v := by
  induction l with
  | nil => simp [dictInsert, dictGet]
  | cons p rest ih =>
    obtain ⟨k0, v0⟩ := p
    by_cases h : k0 = k
    · subst h
      simp [dictInsert, dictGet]
    · simp [dictInsert, dictGet, h, ih]

theorem dictGet_insert_ne (k k' : String) (v : Value) (l : List (String × Value))
    (h : ¬ k = k') : dictGet k (dictInsert k' v l) = dictGet k l := by
  have h2 : ¬ k' = k := fun hh => h hh.symm
  induction l with
  | nil => simp [dictInsert, dictGet, h2]
  | cons p rest ih =>
    obtain ⟨k0, v0⟩ := p
    by_cases h0 : k0 = k'
    · subst h0
      simp [dictInsert, dictGet, h2]
    · simp [dictInsert, dictGet, h0, ih]

/-- The last step summary written into shared metadata after a successful
agent call. -/
def lastStepVal (aid res : String) : Value :=
  .vdict [("agent", .vstr aid), ("result", .vstr res), ("parsed", .vnull), ("vars_set", .vlist [])]

/-- C9: a parallel node with identifier pid and agent children a and b
that both succeed produces the aggregate mapping with a bound to the
first child result and b to the second, stores that mapping under pid,
and Step Outputs under a and b each hold that child's own result (the
full run equation also shows the trace and counter bookkeeping). -/
theorem c9_parallel_aggregate_and_child_outputs (cfg : Config) (reg : Registry) (f : Nat)
    (pid aidA aidB : String) (pA pB : Value) (hA hB : Handler) (resA resB : String) (s : ExecSt)
    (hpid : ¬ pid = "") (hpa : ¬ pid = "a") (hpb : ¬ pid = "b")
    (hcap : s.totalSteps + 1 < cfg.executorGlobalStepCap)
    (hra : resolveAgent reg aidA = some hA)
    (hrb : resolveAgent reg aidB = some hB)
    (hha : ∀ task st, hA task st = .ok resA)
    (hhb : ∀ task st, hB task st = .ok resB) :
    runF cfg reg (f + 4) (.node (.parallel (some pid)
        [.agentCall (some "a") aidA pA, .agentCall (some "b") aidB pB])) s
      = (.ok (.vdict [("a", .vstr resA), ("b", .vstr resB)]),
         { state := { s.state with
             metadata := dictInsert "last_step" (lastStepVal aidB resB)
               (dictInsert "last_step" (lastStepVal aidA resA) s.state.metadata) },
           steps := dictInsert pid (.vdict [("a", .vstr resA), ("b", .vstr resB)])
             (dictInsert "b" (.vstr resB) (dictInsert "a" (.vstr resA) s.steps)),
           trace := s.trace ++
             [.parallelStart (some pid) [some "a", some "b"],
              .agentStart "a" aidA (TemplateResolver.render s.state s.steps pA),
              .agentEnd "a" aidA,
              .agentStart "b" aidB
                (TemplateResolver.render
                  { s.state with metadata := dictInsert "last_step" (lastStepVal aidA resA) s.state.metadata }
                  (dictInsert "a" (.vstr resA) s.steps) pB),
              .agentEnd "b" aidB,
              .parallelEnd (some pid)],
           totalSteps := s.totalSteps + 1 + 1 })
    ∧ dictGet pid (runF cfg reg (f + 4) (.node (.parallel (some pid)
        [.agentCall (some "a") aidA pA, .agentCall (some "b") aidB pB])) s).2.steps
      = some (.vdict [("a", .vstr resA), ("b", .vstr resB)])
    ∧ dictGet "a" (runF cfg reg (f + 4) (.node (.parallel (some pid)
        [.agentCall (some "a") aidA pA, .agentCall (some "b") aidB pB])) s).2.steps
      = some (.vstr resA)
    ∧ dictGet "b" (runF cfg reg (f + 4) (.node (.parallel (some pid)
        [.agentCall (some "a") aidA pA, .agentCall (some "b") aidB pB])) s).2.steps
      = some (.vstr resB) := by
  have hc0 : ¬ (cfg.executorGlobalStepCap ≤ s.totalSteps) :=
    Nat.not_le.mpr (Nat.lt_of_succ_lt hcap)
  have hc1 : ¬ (cfg.executorGlobalStepCap ≤ s.totalSteps + 1) := Nat.not_le.mpr hcap
  have heq : runF cfg reg (f + 4) (.node (.parallel (some pid)
        [.agentCall (some "a") aidA pA, .agentCall (some "b") aidB pB])) s
      = (.ok (.vdict [("a", .vstr resA), ("b", .vstr resB)]),
         { state := { s.state with
             metadata := dictInsert "last_step" (lastStepVal aidB resB)
               (dictInsert "last_step" (lastStepVal aidA resA) s.state.metadata) },
           steps := dictInsert pid (.vdict [("a", .vstr resA), ("b", .vstr resB)])
             (dictInsert "b" (.vstr resB) (dictInsert "a" (.vstr resA) s.steps)),
           trace := s.trace ++
             [.parallelStart (some pid) [some "a", some "b"],
              .agentStart "a" aidA (TemplateResolver.render s.state s.steps pA),
              .agentEnd "a" aidA,
              .agentStart "b" aidB
                (TemplateResolver.render
                  { s.state with metadata := dictInsert "last_step" (lastStepVal aidA resA) s.state.metadata }
                  (dictInsert "a" (.vstr resA) s.steps) pB),
              .agentEnd "b" aidB,
              .parallelEnd (some pid)],
           totalSteps := s.totalSteps + 1 + 1 }) := by
    simp [runF, addTrace, hra, hrb, hha, hhb, hc0, hc1, anonKey, nodeIdOf, autoStepId,
      storeIf, hpid, dictInsert, lastStepVal]
  refine ⟨heq, ?_, ?_, ?_⟩
  · rw [heq]
    exact dictGet_insert_self pid _ _
  · rw [heq]
    simp only
    rw [dictGet_insert_ne _ _ _ _ (fun hh => hpa hh.symm)]
    rw [dictGet_insert_ne _ _ _ _ (by decide)]
    exact dictGet_insert_self "a" _ _
  · rw [heq]
    simp only
    rw [dictGet_insert_ne _ _ _ _ (fun hh => hpb hh.symm)]
    exact dictGet_insert_self "b" _ _

theorem c9_parallel_aggregate_and_child_outputs_witness :
    dictGet "P" (runF sampleConfig sampleRegistry 10
      (.node (.parallel (some "P") [agentA, agentB])) (initExecSt sampleState)).2.steps
      = some (.vdict [("a", .vstr "hi"), ("b", .vstr "hi")]) := by
  have h := (c9_parallel_aggregate_and_child_outputs sampleConfig sampleRegistry 6 "P"
    "talk_to_document" "talk_to_document" (.vdict []) (.vdict [])
    (fun _ _ => .ok "hi") (fun _ _ => .ok "hi") "hi" "hi" (initExecSt sampleState)
    (by decide) (by decide) (by decide) (by decide) rfl rfl
    (fun _ _ => rfl) (fun _ _ => rfl)).2.1
  exact h

/-- C1: a loop whose body produces the same result r on the two
iterations the executor actually runs (the deterministic-body case), with
a condition that always evaluates true and max_iters at least 2, runs the
body exactly twice and stops through the no-progress HITL escalation
without raising: iteration 0 establishes the serialized baseline,
iteration 1 serializes identically and triggers the escalation, and the
loop result (stored under the loop id) is the last body result r.  The
final-state equation exhibits exactly the two body runs (through s2 and
s4), the loop_iter_identical trace event, the HITL bookkeeping, and the
stored result. -/
theorem c1_loop_no_progress_two_iterations (cfg : Config) (reg : Registry) (f : Nat)
    (id : Option String) (cond : Option Expr) (dw : Bool) (tasks : List Node) (m : Nat)
    (r : Value) (s s2 s4 : ExecSt)
    (hm : 2 ≤ m)
    (hcap : ¬ cfg.executorGlobalStepCap ≤ s.totalSteps)
    (hcond : ∀ u : ExecSt, condHolds cond u = true)
    (h1 : runF cfg reg (f + 1) (.seqTasks tasks .vnull)
        (addTrace (.loopIterStart id 0) (addTrace (.loopEnter id) s)) = (.ok r, s2))
    (h2 : runF cfg reg f (.seqTasks tasks .vnull)
        (addTrace (.loopIterStart id 1) (addTrace (.loopConditionTrue id 1 dw) s2)) = (.ok r, s4)) :
    runF cfg reg (f + 3) (.node (.loop id cond dw (some m) tasks)) s =
      (.ok r, addTrace (.loopExit id) (storeIf id r
        (routeToHumanAndStop (loopIdenticalMsg id)
          (addTrace (.loopIterIdentical id 1) s4)))) := by
  have hm1 : ¬ (m ≤ 1) := by omega
  rw [show f + 3 = (f + 2) + 1 from rfl, runF.eq_7]
  rw [if_neg hcap]
  simp only [Option.getD]
  rw [show f + 2 = (f + 1) + 1 from rfl, runF.eq_6]
  simp only [hcond, Bool.not_true, Bool.and_false, Bool.false_eq_true, if_false, h1,
    reduceCtorEq, hm1, if_pos, if_neg]
  rw [runF.eq_6]
  simp only [hcond, Bool.not_true, Bool.and_false, Bool.false_eq_true, if_false, Nat.zero_add,
    h2, reduceCtorEq, if_true, eq_self_iff_true]

theorem c1_loop_no_progress_two_iterations_witness :
    (runF sampleConfig sampleRegistry 5
      (.node (.loop (some "L") (some (.lit (.vbool true))) false (some 5) [agentA]))
      (initExecSt sampleState)).1 = .ok (.vstr "hi") := by
  have h := c1_loop_no_progress_two_iterations sampleConfig sampleRegistry 2 (some "L")
    (some (.lit (.vbool true))) false [agentA] 5 (.vstr "hi") (initExecSt sampleState) _ _
    (by decide) (by decide) (fun u => rfl) rfl rfl
  rw [h]

theorem contains_false_iff (l : List String) (a : String) :
    (l.contains a = false) ↔ a ∉ l := by
  rw [show l.contains a = l.elem a from rfl]
  constructor
  · intro h hm
    rw [List.elem_iff.mpr hm] at h
    cases h
  · intro hm
    cases hc : l.elem a
    · rfl
    · exact absurd (List.elem_iff.mp hc) hm

theorem checkId_ok_char (id : Option String) (seen seen1 : List String)
    (h : checkId id seen = .ok seen1) :
    seen1 = (idList id).reverse ++ seen ∧ ∀ i ∈ idList id, seen.contains i = false := by
  cases id with
  | none =>
    simp only [checkId] at h
    cases h
    simp [idList]
  | some i =>
    by_cases hi : i = ""
    · subst hi
      simp only [checkId, if_pos rfl] at h
      cases h
      simp [idList]
    · simp only [checkId, if_neg hi] at h
      cases hc : List.contains seen i with
      | true => rw [hc] at h; simp at h
      | false =>
        rw [hc] at h
        simp only [Bool.false_eq_true, if_false] at h
        cases h
        refine ⟨by simp [idList, hi], ?_⟩
        intro x hx
        simp [idList, hi] at hx
        subst hx
        exact hc

theorem composite_char (id : Option String) (ts : List Node) (seen out seen1 : List String)
    (tIdsL : List String)
    (hc : checkId id seen = .ok seen1)
    (ihL : out = tIdsL.reverse ++ seen1 ∧ tIdsL.Nodup
      ∧ ∀ i ∈ tIdsL, seen1.contains i = false) :
    out = (idList id ++ tIdsL).reverse ++ seen ∧ (idList id ++ tIdsL).Nodup
      ∧ ∀ i ∈ idList id ++ tIdsL, seen.contains i = false := by
  obtain ⟨hout, hnd, hmem⟩ := ihL
  obtain ⟨h1, h2⟩ := checkId_ok_char id seen seen1 hc
  subst h1
  refine ⟨?_, ?_, ?_⟩
  · rw [hout, List.reverse_append, List.append_assoc]
  · rw [List.nodup_append]
    refine ⟨?_, hnd, ?_⟩
    · cases id with
      | none => simp [idList]
      | some i =>
        by_cases hi : i = ""
        · subst hi
          simp [idList]
        · simp [idList, hi]
    · intro x hx
      cases id with
      | none => simp [idList] at hx
      | some i =>
        by_cases hi : i = ""
        · subst hi
          simp [idList] at hx
        · simp [idList, hi] at hx
          subst hx
          intro hxl
          have := hmem x hxl
          rw [contains_false_iff] at this
          exact this (by simp [idList, hi])
  · intro x hx
    rcases List.mem_append.mp hx with h1 | h2
    · cases id with
      | none => simp [idList] at h1
      | some i =>
        by_cases hi : i = ""
        · subst hi
          simp [idList] at h1
        · simp [idList, hi] at h1
          subst h1
          exact (checkId_ok_char (some x) seen _ hc).2 x (by simp [idList, hi])
    · have := hmem x h2
      rw [contains_false_iff] at this
      rw [contains_false_iff]
      intro hxs
      exact this (List.mem_append.mpr (Or.inr hxs))

theorem append_char (tIds lIds : List String) (seen out1 out : List String)
    (hA : out1 = tIds.reverse ++ seen ∧ tIds.Nodup ∧ ∀ i ∈ tIds, seen.contains i = false)
    (hB : out = lIds.reverse ++ out1 ∧ lIds.Nodup ∧ ∀ i ∈ lIds, out1.contains i = false) :
    out = (tIds ++ lIds).reverse ++ seen ∧ (tIds ++ lIds).Nodup
      ∧ ∀ i ∈ tIds ++ lIds, seen.contains i = false := by
  obtain ⟨ho1, hn1, hm1⟩ := hA
  obtain ⟨ho2, hn2, hm2⟩ := hB
  subst ho1
  refine ⟨?_, ?_, ?_⟩
  · rw [ho2, List.reverse_append, List.append_assoc]
  · rw [List.nodup_append]
    refine ⟨hn1, hn2, ?_⟩
    intro x hx hxl
    have := hm2 x hxl
    rw [contains_false_iff] at this
    exact this (List.mem_append.mpr (Or.inl (List.mem_reverse.mpr hx)))
  · intro x hx
    rcases List.mem_append.mp hx with h1 | h2
    · exact hm1 x h1
    · have := hm2 x h2
      rw [contains_false_iff] at this
      rw [contains_false_iff]
      intro hxs
      exact this (List.mem_append.mpr (Or.inr hxs))

mutual
theorem validateIds_char : ∀ (n : Node) (seen out : List String),
    validateIds n seen = .ok out →
    out = (tasksIds n).reverse ++ seen ∧ (tasksIds n).Nodup
      ∧ ∀ i ∈ tasksIds n, seen.contains i = false
  | .agentCall id a p, seen, out => fun h => by
    simp only [validateIds] at h
    simpa [tasksIds] using composite_char id [] seen out out [] h ⟨by simp, by simp, by simp⟩
  | .branchCases id cs e, seen, out => fun h => by
    simp only [validateIds] at h
    simpa [tasksIds] using composite_char id [] seen out out [] h ⟨by simp, by simp, by simp⟩
  | .branchKey id k cs, seen, out => fun h => by
    simp only [validateIds] at h
    simpa [tasksIds] using composite_char id [] seen out out [] h ⟨by simp, by simp, by simp⟩
  | .sequential id ts, seen, out => fun h => by
    simp only [validateIds] at h
    cases hc : checkId id seen with
    | error e => rw [hc] at h; cases h
    | ok seen1 =>
      rw [hc] at h
      exact composite_char id ts seen out seen1 (tasksIdsL ts) hc
        (validateIdsL_char ts seen1 out h)
  | .parallel id ts, seen, out => fun h => by
    simp only [validateIds] at h
    cases hc : checkId id seen with
    | error e => rw [hc] at h; cases h
    | ok seen1 =>
      rw [hc] at h
      exact composite_char id ts seen out seen1 (tasksIdsL ts) hc
        (validateIdsL_char ts seen1 out h)
  | .loop id c dws mi ts, seen, out => fun h => by
    simp only [validateIds] at h
    cases hc : checkId id seen with
    | error e => rw [hc] at h; cases h
    | ok seen1 =>
      rw [hc] at h
      exact composite_char id ts seen out seen1 (tasksIdsL ts) hc
        (validateIdsL_char ts seen1 out h)
  | .unknown id ts, seen, out => fun h => by
    simp only [validateIds] at h
    cases hc : checkId id seen with
    | error e => rw [hc] at h; cases h
    | ok seen1 =>
      rw [hc] at h
      exact composite_char id ts seen out seen1 (tasksIdsL ts) hc
        (validateIdsL_char ts seen1 out h)
theorem validateIdsL_char : ∀ (ts : List Node) (seen out : List String),
    validateIdsL ts seen = .ok out →
    out = (tasksIdsL ts).reverse ++ seen ∧ (tasksIdsL ts).Nodup
      ∧ ∀ i ∈ tasksIdsL ts, seen.contains i = false
  | [], seen, out => fun h => by
    simp only [validateIdsL] at h
    cases h
    simp [tasksIdsL]
  | t :: ts, seen, out => fun h => by
    simp only [validateIdsL] at h
    cases hc : validateIds t seen with
    | error e => rw [hc] at h; cases h
    | ok out1 =>
      rw [hc] at h
      have hA := validateIds_char t seen out1 hc
      have hB := validateIdsL_char ts out1 out h
      simpa [tasksIdsL] using
        append_char (tasksIds t) (tasksIdsL ts) seen out1 out hA hB
end

/-- C4 amended: duplicate identifiers among the nodes the validator
visits (the root and its tasks-reachable descendants, which includes loop
bodies and sequential/parallel children, but not the children hidden
inside branch cases) make execute raise a validation error and leave the
executor state untouched: with a fresh state the trace is empty.  The
companion counterexample shows duplicates inside a branch case are not
caught, which is the part of the original claim that fails. -/
theorem c4_amended_tasks_duplicates_raise_before_any_event (cfg : Config) (reg : Registry) (fuel : Nat) (root : Node) (s : ExecSt)
    (hdup : ¬ (tasksIds root).Nodup) :
    ∃ m, execute cfg reg fuel (some root) s = (.error (.planValidation m), s) := by
  cases hv : validateIds root [] with
  | error m =>
    refine ⟨m, ?_⟩
    simp [execute, hv]
  | ok out => exact absurd (validateIds_char root [] out hv).2.1 hdup

theorem c4_amended_tasks_duplicates_raise_before_any_event_witness :
    ∃ m, execute sampleConfig sampleRegistry 50 (some (.sequential none [agentA, agentA]))
      (initExecSt sampleState) = (.error (.planValidation m), initExecSt sampleState) :=
  c4_amended_tasks_duplicates_raise_before_any_event sampleConfig sampleRegistry 50 (.sequential none [agentA, agentA])
    (initExecSt sampleState) (by decide)

theorem dictGet_insert_isSome (i k : String) (v : Value) (l : List (String × Value))
    (h : (dictGet i l).isSome = true) :
    (dictGet i (dictInsert k v l)).isSome = true := by
  by_cases hik : i = k
  · subst hik
    rw [dictGet_insert_self]
    rfl
  · rw [dictGet_insert_ne _ _ _ _ hik]
    exact h

theorem addTrace_steps (e : Event) (s : ExecSt) : (addTrace e s).steps = s.steps := rfl

theorem route_steps (m : String) (s : ExecSt) : (routeToHumanAndStop m s).steps = s.steps := rfl

theorem storeIf_presence (id : Option String) (v : Value) (s : ExecSt) (i : String)
    (h : (dictGet i s.steps).isSome = true) :
    (dictGet i (storeIf id v s).steps).isSome = true := by
  cases id with
  | none => exact h
  | some j =>
    by_cases hj : j = ""
    · simp [storeIf, hj]
      exact h
    · simp [storeIf, hj]
      exact dictGet_insert_isSome i j v s.steps h

theorem runF_steps_mono (cfg : Config) (reg : Registry) :
    ∀ (fuel : Nat) (w : Work) (s : ExecSt) (i : String),
      (dictGet i s.steps).isSome = true →
      (dictGet i ((runF cfg reg fuel w s).2).steps).isSome = true := by
  intro fuel
  induction fuel with
  | zero =>
    intro w s i h
    simpa [runF] using h
  | succ fuel ih =>
    intro w s i h
    cases w with
    | seqTasks ts acc =>
      cases ts with
      | nil => simpa [runF] using h
      | cons t ts =>
        simp only [runF]
        rcases hr : runF cfg reg fuel (.node t) s with ⟨res, s1⟩
        have h1 : (dictGet i s1.steps).isSome = true := by
          have hh := ih (.node t) s i h
          rw [hr] at hh
          exact hh
        cases res with
        | ok v => exact ih (.seqTasks ts v) s1 i h1
        | error e => exact h1
    | parTasks ts acc =>
      cases ts with
      | nil => simpa [runF] using h
      | cons t ts =>
        simp only [runF]
        rcases hr : runF cfg reg fuel (.node t) s with ⟨res, s1⟩
        have h1 : (dictGet i s1.steps).isSome = true := by
          have hh := ih (.node t) s i h
          rw [hr] at hh
          exact hh
        cases res with
        | ok v => exact ih (.parTasks ts (dictInsert (anonKey (nodeIdOf t)) v acc)) s1 i h1
        | error e => simpa [route_steps] using h1
    | loopIter id condition dw tasks remaining iterIdx last acc =>
      simp only [runF]
      by_cases hpre : (!dw && !condHolds condition (addTrace (.loopIterStart id iterIdx) s)) = true
      · rw [if_pos hpre]
        simpa [addTrace_steps] using h
      · rw [if_neg hpre]
        rcases hr : runF cfg reg fuel (.seqTasks tasks .vnull)
            (addTrace (.loopIterStart id iterIdx) s) with ⟨res, s2⟩
        have h2 : (dictGet i s2.steps).isSome = true := by
          have hh := ih (.seqTasks tasks .vnull) (addTrace (.loopIterStart id iterIdx) s) i
            (by simpa [addTrace_steps] using h)
          rw [hr] at hh
          exact hh
        cases res with
        | error e => exact h2
        | ok r =>
          simp only
          by_cases hlast : last = some (dumpsSorted r)
          · rw [if_pos hlast]
            simpa [route_steps, addTrace_steps] using h2
          · rw [if_neg hlast]
            by_cases hrem : remaining ≤ 1
            · rw [if_pos hrem]
              simpa [addTrace_steps] using h2
            · rw [if_neg hrem]
              by_cases hdw : (dw && !condHolds condition s2) = true
              · rw [if_pos hdw]
                simpa [addTrace_steps] using h2
              · rw [if_neg hdw]
                exact ih (.loopIter id condition dw tasks (remaining - 1) (iterIdx + 1)
                  (some (dumpsSorted r)) r) (addTrace (.loopConditionTrue id (iterIdx + 1) dw) s2)
                  i (by simpa [addTrace_steps] using h2)
    | node n =>
      cases n with
      | loop id condition dw mi tasks =>
        simp only [runF]
        by_cases hcap : cfg.executorGlobalStepCap ≤ s.totalSteps
        · rw [if_pos hcap]
          exact h
        · rw [if_neg hcap]
          rcases hr : runF cfg reg fuel
              (.loopIter id condition dw tasks (mi.getD cfg.executorMaxIters) 0 none .vnull)
              (addTrace (.loopEnter id) s) with ⟨res, s2⟩
          have h2 : (dictGet i s2.steps).isSome = true := by
            have hh := ih (.loopIter id condition dw tasks (mi.getD cfg.executorMaxIters) 0 none .vnull)
              (addTrace (.loopEnter id) s) i (by simpa [addTrace_steps] using h)
            rw [hr] at hh
            exact hh
          cases res with
          | ok r => simpa [addTrace_steps] using storeIf_presence id r s2 i h2
          | error e => exact h2
      | branchCases id cases_ elseTasks =>
        simp only [runF]
        by_cases hcap : cfg.executorGlobalStepCap ≤ s.totalSteps
        · rw [if_pos hcap]
          exact h
        · rw [if_neg hcap]
          rcases hm : cases_.filter (fun c =>
              match c.1 with
              | none => false
              | some e => SafeEvaluator.eval e (addTrace (.branchEnter id) s).state
                  (addTrace (.branchEnter id) s).steps) with _ | ⟨c, _ | ⟨c2, rest⟩⟩
          · simp only [hm]
            by_cases he : elseTasks.isEmpty
            · rw [if_pos he]
              simpa [addTrace_steps, route_steps] using h
            · rw [if_neg he]
              rcases hr : runF cfg reg fuel (.seqTasks elseTasks .vnull)
                  (addTrace (.branchEnter id) s) with ⟨res, s3⟩
              have h3 : (dictGet i s3.steps).isSome = true := by
                have hh := ih (.seqTasks elseTasks .vnull) (addTrace (.branchEnter id) s) i
                  (by simpa [addTrace_steps] using h)
                rw [hr] at hh
                exact hh
              cases res with
              | ok r => simpa [addTrace_steps] using storeIf_presence id r s3 i h3
              | error e => exact h3
          · simp only [hm]
            rcases hr : runF cfg reg fuel (.seqTasks c.2 .vnull)
                (addTrace (.branchSelectWhen id c.1) (addTrace (.branchEnter id) s)) with ⟨res, s3⟩
            have h3 : (dictGet i s3.steps).isSome = true := by
              have hh := ih (.seqTasks c.2 .vnull)
                (addTrace (.branchSelectWhen id c.1) (addTrace (.branchEnter id) s)) i
                (by simpa [addTrace_steps] using h)
              rw [hr] at hh
              exact hh
            cases res with
            | ok r => simpa [addTrace_steps] using storeIf_presence id r s3 i h3
            | error e => exact h3
          · simp only [hm]
            simpa [addTrace_steps, route_steps] using h
      | branchKey id key cases_ =>
        simp only [runF]
        by_cases hcap : cfg.executorGlobalStepCap ≤ s.totalSteps
        · rw [if_pos hcap]
          exact h
        · rw [if_neg hcap]
          by_cases hk : key = ""
          · simp only [hk, if_pos rfl]
            exact h
          · rw [if_neg hk]
            rcases hv : (match SafeEvaluator.get_value
                (if strStartsWith "state." key || strStartsWith "steps." key then key
                 else "state." ++ key) (addTrace (.branchEnter id) s).state
                (addTrace (.branchEnter id) s).steps with
              | .vstr vs => dictGet vs cases_
              | _ => none) with _ | ts
            · simp only [hv]
              rcases he : dictGet "else" cases_ with _ | ts
              · simp only [he]
                simpa [addTrace_steps, route_steps] using h
              · simp only [he]
                rcases hr : runF cfg reg fuel (.seqTasks ts .vnull)
                    (addTrace (.branchSelectKey id (.vstr "else")) (addTrace (.branchEnter id) s))
                    with ⟨res, s3⟩
                have h3 : (dictGet i s3.steps).isSome = true := by
                  have hh := ih (.seqTasks ts .vnull)
                    (addTrace (.branchSelectKey id (.vstr "else")) (addTrace (.branchEnter id) s)) i
                    (by simpa [addTrace_steps] using h)
                  rw [hr] at hh
                  exact hh
                cases res with
                | ok r => simpa [addTrace_steps] using storeIf_presence id r s3 i h3
                | error e => exact h3
            · simp only [hv]
              rcases hr : runF cfg reg fuel (.seqTasks ts .vnull)
                  (addTrace (.branchSelectKey id (SafeEvaluator.get_value
                    (if strStartsWith "state." key || strStartsWith "steps." key then key
                     else "state." ++ key) (addTrace (.branchEnter id) s).state
                    (addTrace (.branchEnter id) s).steps)) (addTrace (.branchEnter id) s))
                  with ⟨res, s3⟩
              have h3 : (dictGet i s3.steps).isSome = true := by
                have hh := ih (.seqTasks ts .vnull)
                  (addTrace (.branchSelectKey id (SafeEvaluator.get_value
                    (if strStartsWith "state." key || strStartsWith "steps." key then key
                     else "state." ++ key) (addTrace (.branchEnter id) s).state
                    (addTrace (.branchEnter id) s).steps)) (addTrace (.branchEnter id) s)) i
                  (by simpa [addTrace_steps] using h)
                rw [hr] at hh
                exact hh
              cases res with
              | ok r => simpa [addTrace_steps] using storeIf_presence id r s3 i h3
              | error e => exact h3
      | sequential id ts =>
        simp only [runF]
        by_cases hcap : cfg.executorGlobalStepCap ≤ s.totalSteps
        · rw [if_pos hcap]
          exact h
        · rw [if_neg hcap]
          exact ih (.seqTasks ts .vnull) s i h
      | parallel id ts =>
        simp only [runF]
        by_cases hcap : cfg.executorGlobalStepCap ≤ s.totalSteps
        · rw [if_pos hcap]
          exact h
        · rw [if_neg hcap]
          rcases hr : runF cfg reg fuel (.parTasks ts [])
              (addTrace (.parallelStart id (ts.map nodeIdOf)) s) with ⟨res, s2⟩
          have h2 : (dictGet i s2.steps).isSome = true := by
            have hh := ih (.parTasks ts []) (addTrace (.parallelStart id (ts.map nodeIdOf)) s) i
              (by simpa [addTrace_steps] using h)
            rw [hr] at hh
            exact hh
          cases res with
          | ok v => simpa [addTrace_steps] using storeIf_presence id v s2 i h2
          | error e => exact h2
      | agentCall id aid params =>
        simp only [runF]
        by_cases hcap : cfg.executorGlobalStepCap ≤ s.totalSteps
        · rw [if_pos hcap]
          exact h
        · rw [if_neg hcap]
          rcases hra : resolveAgent reg aid with _ | handler
          · simpa [route_steps] using h
          · rcases hh : handler (dumpsV (TemplateResolver.render s.state s.steps params))
                (addTrace (Event.agentStart (autoStepId id (s.totalSteps + 1)) aid
                  (TemplateResolver.render s.state s.steps params))
                  { state := s.state, steps := s.steps, trace := s.trace,
                    totalSteps := s.totalSteps + 1 }).state with e | r
            · simp only [hh]
              simpa [route_steps, addTrace_steps] using h
            · simp only [hh]
              simpa [addTrace_steps] using dictGet_insert_isSome i _ _ _ h
      | unknown id ts =>
        simp only [runF]
        by_cases hcap : cfg.executorGlobalStepCap ≤ s.totalSteps
        · rw [if_pos hcap]
          exact h
        · rw [if_neg hcap]
          exact h

def paIdsW : Work → List String
  | .node n => paIds n
  | .seqTasks ts _ => paIdsL ts
  | .parTasks ts _ => paIdsL ts
  | .loopIter _ _ _ _ _ _ _ _ => []

theorem runF_stores_pa (cfg : Config) (reg : Registry) :
    ∀ (fuel : Nat) (w : Work) (s : ExecSt) (v : Value) (s2 : ExecSt),
      runF cfg reg fuel w s = (.ok v, s2) →
      ∀ i ∈ paIdsW w, (dictGet i s2.steps).isSome = true := by
  intro fuel
  induction fuel with
  | zero =>
    intro w s v s2 heq
    simp [runF] at heq
  | succ fuel ih =>
    intro w s v s2 heq i hi
    cases w with
    | loopIter id condition dw tasks remaining iterIdx last acc =>
      simp [paIdsW] at hi
    | seqTasks ts acc =>
      cases ts with
      | nil => simp [paIdsW, paIdsL] at hi
      | cons t ts =>
        simp only [runF] at heq
        rcases hr : runF cfg reg fuel (.node t) s with ⟨res, s1⟩
        simp only [hr] at heq
        cases res with
        | error e => simp at heq
        | ok v1 =>
          have heq2 : runF cfg reg fuel (.seqTasks ts v1) s1 = (Except.ok v, s2) := heq
          simp only [paIdsW, paIdsL] at hi
          rcases List.mem_append.mp hi with h1 | h2
          · have hp : (dictGet i s1.steps).isSome = true :=
              ih (.node t) s v1 s1 hr i (by simpa [paIdsW] using h1)
            have hm := runF_steps_mono cfg reg fuel (.seqTasks ts v1) s1 i hp
            rw [heq2] at hm
            exact hm
          · exact ih (.seqTasks ts v1) s1 v s2 heq2 i (by simpa [paIdsW] using h2)
    | parTasks ts acc =>
      cases ts with
      | nil => simp [paIdsW, paIdsL] at hi
      | cons t ts =>
        simp only [runF] at heq
        rcases hr : runF cfg reg fuel (.node t) s with ⟨res, s1⟩
        simp only [hr] at heq
        cases res with
        | error e => simp at heq
        | ok v1 =>
          have heq2 : runF cfg reg fuel (.parTasks ts (dictInsert (anonKey (nodeIdOf t)) v1 acc)) s1
              = (Except.ok v, s2) := heq
          simp only [paIdsW, paIdsL] at hi
          rcases List.mem_append.mp hi with h1 | h2
          · have hp : (dictGet i s1.steps).isSome = true :=
              ih (.node t) s v1 s1 hr i (by simpa [paIdsW] using h1)
            have hm := runF_steps_mono cfg reg fuel
              (.parTasks ts (dictInsert (anonKey (nodeIdOf t)) v1 acc)) s1 i hp
            rw [heq2] at hm
            exact hm
          · exact ih (.parTasks ts (dictInsert (anonKey (nodeIdOf t)) v1 acc)) s1 v s2 heq2 i
              (by simpa [paIdsW] using h2)
    | node n =>
      cases n with
      | loop id condition dw mi tasks => simp [paIdsW, paIds] at hi
      | branchCases id cases_ elseTasks => simp [paIdsW, paIds] at hi
      | branchKey id key cases_ => simp [paIdsW, paIds] at hi
      | unknown id ts => simp [paIdsW, paIds] at hi
      | sequential id ts =>
        simp only [runF] at heq
        by_cases hcap : cfg.executorGlobalStepCap ≤ s.totalSteps
        · rw [if_pos hcap] at heq
          simp at heq
        · rw [if_neg hcap] at heq
          exact ih (.seqTasks ts .vnull) s v s2 heq i (by simpa [paIdsW, paIds] using hi)
      | parallel id ts =>
        simp only [runF] at heq
        by_cases hcap : cfg.executorGlobalStepCap ≤ s.totalSteps
        · rw [if_pos hcap] at heq
          simp at heq
        · rw [if_neg hcap] at heq
          rcases hr : runF cfg reg fuel (.parTasks ts [])
              (addTrace (.parallelStart id (ts.map nodeIdOf)) s) with ⟨res, s1⟩
          simp only [hr] at heq
          cases res with
          | error e => simp at heq
          | ok vv =>
            simp only [Prod.mk.injEq] at heq
            obtain ⟨hv1, hs2⟩ := heq
            subst hs2
            simp only [paIdsW, paIds] at hi
            rcases List.mem_append.mp hi with h1 | h2
            · cases id with
              | none => simp [idList] at h1
              | some j =>
                by_cases hj : j = ""
                · subst hj
                  simp [idList] at h1
                · simp [idList, hj] at h1
                  subst h1
                  simp [addTrace_steps, storeIf, hj]
                  rw [dictGet_insert_self]
                  rfl
            · have hp : (dictGet i s1.steps).isSome = true :=
                ih (.parTasks ts []) (addTrace (.parallelStart id (ts.map nodeIdOf)) s) vv s1 hr i
                  (by simpa [paIdsW] using h2)
              simpa [addTrace_steps] using storeIf_presence id vv s1 i hp
      | agentCall id aid params =>
        simp only [runF] at heq
        by_cases hcap : cfg.executorGlobalStepCap ≤ s.totalSteps
        · rw [if_pos hcap] at heq
          simp at heq
        · rw [if_neg hcap] at heq
          rcases hra : resolveAgent reg aid with _ | handler
          · rw [hra] at heq
            simp at heq
          · rw [hra] at heq
            simp only [] at heq
            rcases hh : handler (dumpsV (TemplateResolver.render s.state s.steps params))
                (addTrace (Event.agentStart (autoStepId id (s.totalSteps + 1)) aid
                  (TemplateResolver.render s.state s.steps params))
                  { state := s.state, steps := s.steps, trace := s.trace,
                    totalSteps := s.totalSteps + 1 }).state with e | r
            · simp only [hh] at heq
              simp at heq
            · simp only [hh, Prod.mk.injEq] at heq
              obtain ⟨hv1, hs2⟩ := heq
              subst hs2
              simp only [paIdsW, paIds] at hi
              cases id with
              | none => simp [idList] at hi
              | some j =>
                by_cases hj : j = ""
                · subst hj
                  simp [idList] at hi
                · simp [idList, hj] at hi
                  subst hi
                  simp [autoStepId, hj, addTrace]
                  rw [dictGet_insert_self]
                  rfl

/-- C5 amended: after a successful execute, every declared identifier on
agent-call and parallel nodes reachable through sequential and parallel
nesting from the root appears as a key of Step Outputs.  Sequential node
identifiers are never recorded (see the companion counterexample), and
identifiers inside branch and loop subtrees are excluded because their
children need not run at all. -/
theorem c5_amended_par_agent_ids_stored (cfg : Config) (reg : Registry) (fuel : Nat) (root : Node)
    (s : ExecSt) (v : Value) (s2 : ExecSt)
    (h : execute cfg reg fuel (some root) s = (.ok v, s2)) :
    ∀ i ∈ paIds root, (dictGet i s2.steps).isSome = true := by
  simp only [execute] at h
  cases hv : validateIds root [] with
  | error m =>
    simp only [hv] at h
    simp at h
  | ok out =>
    simp only [hv] at h
    rcases hr : runF cfg reg fuel (.node root) (addTrace (.startPlan (nodeIdOf root)) s)
      with ⟨res, s2x⟩
    simp only [hr] at h
    cases res with
    | error e => simp at h
    | ok vv =>
      have h2 : (Except.ok vv, addTrace (.endPlan (nodeIdOf root)) s2x) = (Except.ok v, s2) := h
      simp only [Prod.mk.injEq] at h2
      obtain ⟨hv1, hs2⟩ := h2
      subst hs2
      intro i hi
      have hp := runF_stores_pa cfg reg fuel (.node root)
        (addTrace (.startPlan (nodeIdOf root)) s) vv s2x hr i (by simpa [paIdsW] using hi)
      simpa [addTrace_steps] using hp

theorem c5_amended_par_agent_ids_stored_witness :
    (dictGet "a" (execute sampleConfig sampleRegistry 50 (some seqIdPlan)
      (initExecSt sampleState)).2.steps).isSome = true := by
  have h := c5_amended_par_agent_ids_stored sampleConfig sampleRegistry 50 seqIdPlan (initExecSt sampleState)
    (.vstr "hi")
    (execute sampleConfig sampleRegistry 50 (some seqIdPlan) (initExecSt sampleState)).2 rfl
  exact h "a" (by decide)

theorem c7_loop_iter_cap_aux (cfg : Config) (reg : Registry) (id : Option String)
    (cond : Option Expr) (dw : Bool) (tasks : List Node) (k N : Nat)
    (u v : Nat → ExecSt) (res : Nat → Value)
    (hcond : ∀ w, condHolds cond w = true)
    (hbody : ∀ i g, i < N → k ≤ g →
      runF cfg reg g (.seqTasks tasks .vnull) (u i) = (.ok (res i), v i))
    (hustep : ∀ i, u (i + 1) = addTrace (.loopIterStart id (i + 1))
        (addTrace (.loopConditionTrue id (i + 1) dw) (v i)))
    (hdist : ∀ i, i + 1 < N → dumpsSorted (res (i + 1)) ≠ dumpsSorted (res i)) :
    ∀ (rem : Nat), 1 ≤ rem → ∀ (j g : Nat) (last : Option String) (acc : Value) (s0 : ExecSt),
      j + rem = N →
      u j = addTrace (.loopIterStart id j) s0 →
      k + rem ≤ g →
      last ≠ some (dumpsSorted (res j)) →
      runF cfg reg g (.loopIter id cond dw tasks rem j last acc) s0 =
        (.ok (res (N - 1)), addTrace (.loopMaxIters id N) (v (N - 1))) := by
  intro rem
  induction rem with
  | zero => intro h1; simp at h1
  | succ rem ih =>
    intro _ j g last acc s0 hjN hu hg hlast
    obtain ⟨g2, rfl⟩ : ∃ g2, g = g2 + 1 := ⟨g - 1, by omega⟩
    rw [runF.eq_6]
    rw [← hu]
    simp only [hcond, Bool.not_true, Bool.and_false, Bool.false_eq_true, if_false]
    rw [hbody j g2 (by omega) (by omega)]
    simp only []
    rw [if_neg hlast]
    by_cases hrem : rem + 1 ≤ 1
    · have hrem0 : rem = 0 := by omega
      subst hrem0
      rw [if_pos (by omega)]
      have hN : N = j + 1 := by omega
      subst hN
      rfl
    · rw [if_neg hrem]
      have harith : rem + 1 - 1 = rem := by omega
      rw [harith]
      exact ih (by omega) (j + 1) g2 (some (dumpsSorted (res j))) (res j)
        (addTrace (.loopConditionTrue id (j + 1) dw) (v j))
        (by omega) (hustep j) (by omega)
        (fun hc => hdist j (by omega) ((Option.some.inj hc).symm))

/-- C7 amended: a loop with max_iters = N (N at least 1), an always-true
condition, and a body whose serialized result differs between consecutive
iterations runs the body exactly N times (the iteration chain u 0 .. u
(N-1) with body effects v) and terminates through the iteration cap,
recorded as the loop_max_iters trace event, with no HITL escalation; the
loop result is the last body result.  The original claim omitted the
distinct-results hypothesis: with a constant body the loop instead stops
after 2 iterations through HITL (see the companion counterexample). -/
theorem c7_amended_loop_cap_exact_iterations (cfg : Config) (reg : Registry) (id : Option String)
    (cond : Option Expr) (dw : Bool) (tasks : List Node) (k N F : Nat)
    (u v : Nat → ExecSt) (res : Nat → Value) (s : ExecSt)
    (hN : 1 ≤ N)
    (hcap : ¬ cfg.executorGlobalStepCap ≤ s.totalSteps)
    (hcond : ∀ w, condHolds cond w = true)
    (hbody : ∀ i g, i < N → k ≤ g →
      runF cfg reg g (.seqTasks tasks .vnull) (u i) = (.ok (res i), v i))
    (hustep : ∀ i, u (i + 1) = addTrace (.loopIterStart id (i + 1))
        (addTrace (.loopConditionTrue id (i + 1) dw) (v i)))
    (hdist : ∀ i, i + 1 < N → dumpsSorted (res (i + 1)) ≠ dumpsSorted (res i))
    (hu0 : u 0 = addTrace (.loopIterStart id 0) (addTrace (.loopEnter id) s))
    (hF : k + N ≤ F) :
    runF cfg reg (F + 1) (.node (.loop id cond dw (some N) tasks)) s =
      (.ok (res (N - 1)), addTrace (.loopExit id)
        (storeIf id (res (N - 1)) (addTrace (.loopMaxIters id N) (v (N - 1))))) := by
  rw [runF.eq_7]
  rw [if_neg hcap]
  simp only [Option.getD]
  have haux := c7_loop_iter_cap_aux cfg reg id cond dw tasks k N u v res hcond hbody hustep hdist
    N hN 0 F none .vnull (addTrace (.loopEnter id) s) (by omega) hu0 hF (by simp)
  simp only [haux]

def varyRegistry : Registry :=
  fun n => if n = "TalktoDocument" then some (fun _ st => .ok (toString st.metadata.length)) else none

def varyBody : List Node := [.agentCall (some "a") "talk_to_document" (.vdict [])]

def c7wU : Nat → ExecSt
  | 0 => addTrace (.loopIterStart (some "L") 0)
      (addTrace (.loopEnter (some "L")) (initExecSt sampleState))
  | i + 1 => addTrace (.loopIterStart (some "L") (i + 1))
      (addTrace (.loopConditionTrue (some "L") (i + 1) false)
        ((runF sampleConfig varyRegistry 20 (.seqTasks varyBody .vnull) (c7wU i)).2))

def c7wV (i : Nat) : ExecSt :=
  (runF sampleConfig varyRegistry 20 (.seqTasks varyBody .vnull) (c7wU i)).2

def c7wRes (i : Nat) : Value :=
  if i = 0 then .vstr "1" else .vstr "2"

theorem c7_amended_loop_cap_exact_iterations_witness :
    (runF sampleConfig varyRegistry 21
      (.node (.loop (some "L") (some (.lit (.vbool true))) false (some 2) varyBody))
      (initExecSt sampleState)).1 = .ok (.vstr "2") := by
  have hbody : ∀ i g, i < 2 → 2 ≤ g →
      runF sampleConfig varyRegistry g (.seqTasks varyBody .vnull) (c7wU i)
        = (.ok (c7wRes i), c7wV i) := by
    intro i g hi hg
    obtain ⟨g2, rfl⟩ : ∃ g2, g = g2 + 2 := ⟨g - 2, by omega⟩
    interval_cases i
    · simp only [runF, varyBody, c7wU, c7wV, c7wRes]
      rfl
    · simp only [runF, varyBody, c7wU, c7wV, c7wRes]
      rfl
  have h := c7_amended_loop_cap_exact_iterations sampleConfig varyRegistry (some "L")
    (some (.lit (.vbool true))) false varyBody 2 2 20 c7wU c7wV c7wRes
    (initExecSt sampleState) (by omega) (by decide) (fun w => rfl) hbody
    (fun i => rfl)
    (by
      intro i hi
      have hi0 : i = 0 := by omega
      subst hi0
      decide)
    rfl (by omega)
  rw [h]
  rfl
